import Mathlib

/-!
# gorealis: update-request builder, endpoint validator and batch calculator

A shallow embedding of `util.go` and `jobUpdate.go` of the gorealis client,
with the properties of the written specification stated over it.

Conventions of the embedding:

* a Go `int32` is an `Int` kept in range by `wrapInt32` after every
  arithmetic operation that can leave the range;
* a Go `int` (64 bit) is an `Int`; the values that occur are list lengths
  plus an `int32`, so no wrap-around is modelled for it;
* a Go run-time panic is the `Except.error` result of the function.
-/

namespace Realis

/-! ## Batch progress calculator (`util.go`) -/

/-- Run-time panics that `calculateCurrentBatch` can raise. -/
inductive Panic where
  | indexOutOfRange
  | divideByZero
  deriving DecidableEq, Repr

/-- Two's-complement wrap-around of a mathematical integer to `int32`. -/
def wrapInt32 (x : Int) : Int := (x + 2147483648) % 4294967296 - 2147483648

/-- The values of type `int32`. -/
def isInt32 (x : Int) : Prop := -2147483648 ≤ x ∧ x ≤ 2147483647

instance (x : Int) : Decidable (isInt32 x) := by
  unfold isInt32
  exact inferInstance

/-- The `for i, size := range batchSizes` loop of `calculateCurrentBatch`,
started at index `i` with running remainder `updatingInstances`:
`Sum.inl i` is the early `return i`, `Sum.inr r` is falling out of the loop
with remainder `r`. -/
def batchLoop (updatingInstances : Int) (i : Nat) : List Int → Sum Nat Int
  | [] => Sum.inr updatingInstances
  | size :: rest =>
    let updatingInstances := wrapInt32 (updatingInstances - size)
    if updatingInstances ≤ 0 then Sum.inl i
    else batchLoop updatingInstances (i + 1) rest

/-- The "overflow batches" tail of `calculateCurrentBatch`, entered with the
remainder left by the loop. `batchSizes[lastBatchIndex]` panics on an empty
list, the `int32` division panics on a zero divisor. -/
def overflowBatches (updatingInstances : Int) (batchSizes : List Int) : Except Panic Int :=
  let batchCount : Int := (batchSizes.length : Int) - 1
  match batchSizes.getLast? with
  | none => Except.error Panic.indexOutOfRange
  | some last =>
    if last = 0 then Except.error Panic.divideByZero
    else
      let batchCount := batchCount + wrapInt32 (Int.tdiv updatingInstances last)
      if Int.tmod updatingInstances last ≠ 0 then Except.ok (batchCount + 1)
      else Except.ok batchCount

/-- Embedding of `calculateCurrentBatch(updatingInstances int32, batchSizes []int32) int`. -/
def calculateCurrentBatch (updatingInstances : Int) (batchSizes : List Int) : Except Panic Int :=
  match batchLoop updatingInstances 0 batchSizes with
  | Sum.inl i => Except.ok (i : Int)
  | Sum.inr r => overflowBatches r batchSizes

/-- A list of positive `int32` batch sizes. -/
def PositiveSizes (batchSizes : List Int) : Prop :=
  ∀ s ∈ batchSizes, 0 < s ∧ s ≤ 2147483647

/-! ## Update request builder (`jobUpdate.go`)

The generated Thrift types (`aurora.Range`, `aurora.JobUpdateSettings`, ...)
and the task type `AuroraTask` are declared outside `util.go` and
`jobUpdate.go`. The Thrift records are written out with the fields that
`jobUpdate.go` reads and writes; a Go pointer field that may be `nil` is an
`Option`, and every field starts at its Go zero value. The task and its
operations are parameters of the embedding. -/

/-- Modelled from the spec: the generated record `aurora.Range`, an inclusive
range of instance ids. -/
structure Range where
  First : Int
  Last : Int
  deriving DecidableEq, Repr

/-- Modelled from the spec: the generated record `aurora.QueueJobUpdateStrategy`. -/
structure QueueJobUpdateStrategy where
  GroupSize : Int
  deriving DecidableEq, Repr

/-- Modelled from the spec: the generated record `aurora.BatchJobUpdateStrategy`. -/
structure BatchJobUpdateStrategy where
  GroupSize : Int
  AutopauseAfterBatch : Bool
  deriving DecidableEq, Repr

/-- Modelled from the spec: the generated record
`aurora.VariableBatchJobUpdateStrategy`. -/
structure VariableBatchJobUpdateStrategy where
  GroupSizes : List Int
  AutopauseAfterBatch : Bool
  deriving DecidableEq, Repr

/-- Modelled from the spec: the generated union record
`aurora.JobUpdateStrategy`, three pointer fields of which the builder sets one. -/
structure JobUpdateStrategy where
  QueueStrategy : Option QueueJobUpdateStrategy := none
  BatchStrategy : Option BatchJobUpdateStrategy := none
  VarBatchStrategy : Option VariableBatchJobUpdateStrategy := none
  deriving DecidableEq, Repr

/-- Modelled from the spec: the generated record `aurora.JobUpdateSettings`.
The defaults are the Go zero values of `aurora.JobUpdateSettings{}`. -/
structure JobUpdateSettings where
  UpdateGroupSize : Int := 0
  MaxPerInstanceFailures : Int := 0
  MaxFailedInstances : Int := 0
  MinWaitInInstanceRunningMs : Int := 0
  RollbackOnFailure : Bool := false
  UpdateOnlyTheseInstances : List Range := []
  WaitForBatchCompletion : Bool := false
  BlockIfNoPulsesAfterMs : Option Int := none
  UpdateStrategy : Option JobUpdateStrategy := none
  SlaAware : Option Bool := none
  deriving DecidableEq, Repr

/-- What `jobUpdate.go` uses from outside the two files: the task type with
its constructor, deep copies and wire export, and the float64 conversion
`int32(timeout.Seconds() * 1000)` of a `time.Duration` (nanoseconds). -/
structure TaskOps (Task TaskConfig : Type) where
  NewTask : Task
  Clone : Task → Task
  TaskFromThrift : TaskConfig → Task
  TaskConfig : Task → TaskConfig
  durationToMs : Int → Int

/-- Modelled from the spec: the generated record `aurora.JobUpdateRequest`, as
`jobUpdate.go` builds it. The field `TaskConfig` of the Go record holds the
pointer that `newTask.TaskConfig()` returns; it is read through
`JobUpdate.requestTaskConfig`. -/
structure JobUpdateRequest where
  InstanceCount : Int := 0
  Settings : JobUpdateSettings
  deriving DecidableEq, Repr

/-- Embedding of `type JobUpdate struct { task *AuroraTask; request *aurora.JobUpdateRequest }`. -/
structure JobUpdate (Task : Type) where
  task : Task
  request : JobUpdateRequest

/-- Embedding of `newUpdateSettings`. -/
def newUpdateSettings : JobUpdateSettings :=
  let us : JobUpdateSettings := {}
  let us := { us with UpdateOnlyTheseInstances := [] }
  let us := { us with UpdateGroupSize := 1 }
  let us := { us with WaitForBatchCompletion := false }
  let us := { us with MinWaitInInstanceRunningMs := 45000 }
  let us := { us with MaxPerInstanceFailures := 0 }
  let us := { us with MaxFailedInstances := 0 }
  let us := { us with RollbackOnFailure := true }
  us

section Builder

variable {Task TaskConfig : Type}

/-- Embedding of `NewJobUpdate`. -/
def NewJobUpdate (ops : TaskOps Task TaskConfig) : JobUpdate Task :=
  let newTask := ops.NewTask
  { task := newTask, request := { Settings := newUpdateSettings } }

/-- Embedding of `JobUpdateFromAuroraTask`. -/
def JobUpdateFromAuroraTask (ops : TaskOps Task TaskConfig) (task : Task) : JobUpdate Task :=
  let newTask := ops.Clone task
  { task := newTask, request := { Settings := newUpdateSettings } }

/-- Embedding of `JobUpdateFromConfig`. -/
def JobUpdateFromConfig (ops : TaskOps Task TaskConfig) (task : TaskConfig) : JobUpdate Task :=
  let newTask := ops.TaskFromThrift task
  { task := newTask, request := { Settings := newUpdateSettings } }

/-- The `TaskConfig` pointer stored in the request: the wire form of the
builder's own task. -/
def JobUpdate.requestTaskConfig (ops : TaskOps Task TaskConfig) (j : JobUpdate Task) : TaskConfig :=
  ops.TaskConfig j.task

/-- Embedding of `(*JobUpdate).InstanceCount`. -/
def JobUpdate.InstanceCount (inst : Int) (j : JobUpdate Task) : JobUpdate Task :=
  { j with request := { j.request with InstanceCount := inst } }

/-- Embedding of `(*JobUpdate).BatchSize`. -/
def JobUpdate.BatchSize (size : Int) (j : JobUpdate Task) : JobUpdate Task :=
  { j with request := { j.request with
      Settings := { j.request.Settings with UpdateGroupSize := size } } }

/-- Embedding of `(*JobUpdate).WatchTime`. -/
def JobUpdate.WatchTime (ops : TaskOps Task TaskConfig) (timeout : Int) (j : JobUpdate Task) :
    JobUpdate Task :=
  { j with request := { j.request with
      Settings := { j.request.Settings with
        MinWaitInInstanceRunningMs := ops.durationToMs timeout } } }

/-- Embedding of `(*JobUpdate).WaitForBatchCompletion`. -/
def JobUpdate.WaitForBatchCompletion (batchWait : Bool) (j : JobUpdate Task) : JobUpdate Task :=
  { j with request := { j.request with
      Settings := { j.request.Settings with WaitForBatchCompletion := batchWait } } }

/-- Embedding of `(*JobUpdate).MaxPerInstanceFailures`. -/
def JobUpdate.MaxPerInstanceFailures (inst : Int) (j : JobUpdate Task) : JobUpdate Task :=
  { j with request := { j.request with
      Settings := { j.request.Settings with MaxPerInstanceFailures := inst } } }

/-- Embedding of `(*JobUpdate).MaxFailedInstances`. -/
def JobUpdate.MaxFailedInstances (inst : Int) (j : JobUpdate Task) : JobUpdate Task :=
  { j with request := { j.request with
      Settings := { j.request.Settings with MaxFailedInstances := inst } } }

/-- Embedding of `(*JobUpdate).RollbackOnFail`. -/
def JobUpdate.RollbackOnFail (rollback : Bool) (j : JobUpdate Task) : JobUpdate Task :=
  { j with request := { j.request with
      Settings := { j.request.Settings with RollbackOnFailure := rollback } } }

/-- Embedding of `(*JobUpdate).PulseIntervalTimeout`. -/
def JobUpdate.PulseIntervalTimeout (ops : TaskOps Task TaskConfig) (timeout : Int)
    (j : JobUpdate Task) : JobUpdate Task :=
  { j with request := { j.request with
      Settings := { j.request.Settings with
        BlockIfNoPulsesAfterMs := some (ops.durationToMs timeout) } } }

/-- Embedding of `(*JobUpdate).BatchUpdateStrategy`. -/
def JobUpdate.BatchUpdateStrategy (autoPause : Bool) (batchSize : Int) (j : JobUpdate Task) :
    JobUpdate Task :=
  { j with request := { j.request with
      Settings := { j.request.Settings with
        UpdateStrategy := some
          { BatchStrategy := some { GroupSize := batchSize, AutopauseAfterBatch := autoPause } } } } }

/-- Embedding of `(*JobUpdate).QueueUpdateStrategy`. -/
def JobUpdate.QueueUpdateStrategy (groupSize : Int) (j : JobUpdate Task) : JobUpdate Task :=
  { j with request := { j.request with
      Settings := { j.request.Settings with
        UpdateStrategy := some { QueueStrategy := some { GroupSize := groupSize } } } } }

/-- Embedding of `(*JobUpdate).VariableBatchStrategy`. -/
def JobUpdate.VariableBatchStrategy (autoPause : Bool) (batchSizes : List Int)
    (j : JobUpdate Task) : JobUpdate Task :=
  { j with request := { j.request with
      Settings := { j.request.Settings with
        UpdateStrategy := some
          { VarBatchStrategy :=
              some { GroupSizes := batchSizes, AutopauseAfterBatch := autoPause } } } } }

/-- Embedding of `(*JobUpdate).SlaAware`. -/
def JobUpdate.SlaAware (slaAware : Bool) (j : JobUpdate Task) : JobUpdate Task :=
  { j with request := { j.request with
      Settings := { j.request.Settings with SlaAware := some slaAware } } }

/-- Embedding of `(*JobUpdate).AddInstanceRange`. -/
def JobUpdate.AddInstanceRange (first last : Int) (j : JobUpdate Task) : JobUpdate Task :=
  { j with request := { j.request with
      Settings := { j.request.Settings with
        UpdateOnlyTheseInstances :=
          j.request.Settings.UpdateOnlyTheseInstances ++ [{ First := first, Last := last }] } } }

/-- The shape shared by the task wrappers of `jobUpdate.go` (`Environment`,
`Role`, `Name`, ..., `PartitionPolicy`): `j.task.M(args); return j`, with
`taskMethod` the effect of the `AuroraTask` method `M(args)` on the task. -/
def JobUpdate.passThrough (taskMethod : Task → Task) (j : JobUpdate Task) : JobUpdate Task :=
  { j with task := taskMethod j.task }

/-- One call on the builder. -/
inductive BuilderCall (Task : Type) where
  | instanceCount (inst : Int)
  | batchSize (size : Int)
  | watchTime (timeout : Int)
  | waitForBatchCompletion (batchWait : Bool)
  | maxPerInstanceFailures (inst : Int)
  | maxFailedInstances (inst : Int)
  | rollbackOnFail (rollback : Bool)
  | pulseIntervalTimeout (timeout : Int)
  | batchUpdateStrategy (autoPause : Bool) (batchSize : Int)
  | queueUpdateStrategy (groupSize : Int)
  | variableBatchStrategy (autoPause : Bool) (batchSizes : List Int)
  | slaAware (aware : Bool)
  | addInstanceRange (first last : Int)
  | passThrough (taskMethod : Task → Task)

/-- The effect of one builder call. -/
def BuilderCall.run (ops : TaskOps Task TaskConfig) : BuilderCall Task → JobUpdate Task → JobUpdate Task
  | .instanceCount inst => JobUpdate.InstanceCount inst
  | .batchSize size => JobUpdate.BatchSize size
  | .watchTime timeout => JobUpdate.WatchTime ops timeout
  | .waitForBatchCompletion batchWait => JobUpdate.WaitForBatchCompletion batchWait
  | .maxPerInstanceFailures inst => JobUpdate.MaxPerInstanceFailures inst
  | .maxFailedInstances inst => JobUpdate.MaxFailedInstances inst
  | .rollbackOnFail rollback => JobUpdate.RollbackOnFail rollback
  | .pulseIntervalTimeout timeout => JobUpdate.PulseIntervalTimeout ops timeout
  | .batchUpdateStrategy autoPause size => JobUpdate.BatchUpdateStrategy autoPause size
  | .queueUpdateStrategy groupSize => JobUpdate.QueueUpdateStrategy groupSize
  | .variableBatchStrategy autoPause sizes => JobUpdate.VariableBatchStrategy autoPause sizes
  | .slaAware aware => JobUpdate.SlaAware aware
  | .addInstanceRange first last => JobUpdate.AddInstanceRange first last
  | .passThrough taskMethod => JobUpdate.passThrough taskMethod

/-- A chain of builder calls, applied left to right. -/
def runCalls (ops : TaskOps Task TaskConfig) (calls : List (BuilderCall Task)) (j : JobUpdate Task) :
    JobUpdate Task :=
  calls.foldl (fun acc call => call.run ops acc) j

/-- The builders that the three constructors return. -/
inductive Constructed (ops : TaskOps Task TaskConfig) : JobUpdate Task → Prop where
  | fresh : Constructed ops (NewJobUpdate ops)
  | fromAuroraTask (task : Task) : Constructed ops (JobUpdateFromAuroraTask ops task)
  | fromConfig (task : TaskConfig) : Constructed ops (JobUpdateFromConfig ops task)

end Builder

/-- Number of strategy variants present in the `UpdateStrategy` field. -/
def strategyVariants : Option JobUpdateStrategy → Nat
  | none => 0
  | some s =>
    (if s.QueueStrategy.isSome then 1 else 0) + (if s.BatchStrategy.isSome then 1 else 0) +
      (if s.VarBatchStrategy.isSome then 1 else 0)

/-! ## Endpoint validator (`util.go`)

`validateAuroraAddress` calls `strings.Contains`, `url.Parse`, `(*URL).Port`
and `(*URL).String` of the Go standard library (package `net/url`, as of
go1.22). Those functions are embedded below, function by function and under
their Go names. A Go string is a sequence of bytes: it is a `List Char` in
which every `Char` stands for the byte with the same code (all bytes of an
ASCII text are their own characters). -/

deriving instance DecidableEq for Except

/-- A Go string, byte by byte. -/
abbrev GoString := List Char

/-- The bytes of an ASCII literal. -/
def str (s : String) : GoString := s.toList

/-- Errors of `net/url` that `url.Parse` can return. -/
inductive UrlError where
  | invalidControlCharacter
  | missingProtocolScheme
  | firstPathSegmentColon
  | missingBracket
  | invalidPort (colonPort : GoString)
  | invalidUserinfo
  | escapeError (s : GoString)
  | invalidHostError (s : GoString)
  deriving DecidableEq, Repr

/-- The errors that `validateAuroraAddress` returns. -/
inductive AddressError where
  | parsingUrl (cause : UrlError)
  | unsupportedProtocol (scheme : GoString)
  | unexpectedPath (path : GoString)
  deriving DecidableEq, Repr

/-- Go `strings.HasPrefix`. -/
def hasPrefix (s pre : GoString) : Bool := pre.isPrefixOf s

/-- Go `strings.HasSuffix`. -/
def hasSuffix (s suf : GoString) : Bool := suf.isSuffixOf s

/-- Go `strings.Index`: the offset of the first occurrence of `sep` in `s`. -/
def index (sep : GoString) : GoString → Option Nat
  | [] => if sep.isEmpty then some 0 else none
  | c :: cs =>
    if hasPrefix (c :: cs) sep then some 0
    else (index sep cs).map (fun i => i + 1)

/-- Go `strings.Contains`. -/
def contains (s sep : GoString) : Bool := (index sep s).isSome

/-- Go `strings.Cut` with a one-byte separator: the text before the first
separator, the text after it, and whether it was found. -/
def cut (sep : Char) : GoString → GoString × GoString × Bool
  | [] => ([], [], false)
  | c :: cs =>
    if c = sep then ([], cs, true)
    else
      let r := cut sep cs
      (c :: r.1, r.2.1, r.2.2)

/-- Go `strings.LastIndex` with a one-byte separator, as the pair of
`s[:i]` and `s[i+1:]` for the last offset `i` of the separator. -/
def cutLast (sep : Char) : GoString → Option (GoString × GoString)
  | [] => none
  | c :: cs =>
    match cutLast sep cs with
    | some (before, after) => some (c :: before, after)
    | none => if c = sep then some ([], cs) else none

/-- Go `strings.Count` of a one-byte separator. -/
def count (sep : Char) (s : GoString) : Nat := s.count sep

/-- Go `strings.ToLower` on ASCII text. -/
def toLower (s : GoString) : GoString :=
  s.map (fun c => if 'A' ≤ c ∧ c ≤ 'Z' then Char.ofNat (c.toNat + 32) else c)

/-- The `encoding` modes of `net/url`. -/
inductive Encoding where
  | encodePath
  | encodePathSegment
  | encodeHost
  | encodeZone
  | encodeUserPassword
  | encodeQueryComponent
  | encodeFragment
  deriving DecidableEq, Repr

/-- Bytes `a`-`z`, `A`-`Z`, `0`-`9`. -/
def isAlphaNum (c : Char) : Bool :=
  ('a' ≤ c ∧ c ≤ 'z') || ('A' ≤ c ∧ c ≤ 'Z') || ('0' ≤ c ∧ c ≤ '9')

/-- Go `ishex`. -/
def ishex (c : Char) : Bool :=
  ('0' ≤ c ∧ c ≤ '9') || ('a' ≤ c ∧ c ≤ 'f') || ('A' ≤ c ∧ c ≤ 'F')

/-- Go `unhex`. -/
def unhex (c : Char) : Nat :=
  if '0' ≤ c ∧ c ≤ '9' then c.toNat - 48
  else if 'a' ≤ c ∧ c ≤ 'f' then c.toNat - 97 + 10
  else if 'A' ≤ c ∧ c ≤ 'F' then c.toNat - 65 + 10
  else 0

/-- The digit `"0123456789ABCDEF"[n]`. -/
def upperhex (n : Nat) : Char :=
  if n < 10 then Char.ofNat (48 + n) else Char.ofNat (55 + n)

/-- Go `shouldEscape`: whether byte `c` is written as `%XX` in the given mode. -/
def shouldEscape (c : Char) (mode : Encoding) : Bool :=
  if isAlphaNum c then false
  else if (mode = Encoding.encodeHost ∨ mode = Encoding.encodeZone) ∧
      (c = '!' ∨ c = '$' ∨ c = '&' ∨ c = Char.ofNat 39 ∨ c = '(' ∨ c = ')' ∨ c = '*' ∨ c = '+' ∨
        c = ',' ∨ c = ';' ∨ c = '=' ∨ c = ':' ∨ c = '[' ∨ c = ']' ∨ c = '<' ∨ c = '>' ∨
        c = Char.ofNat 34) then false
  else if c = '-' ∨ c = '_' ∨ c = '.' ∨ c = '~' then false
  else if c = '$' ∨ c = '&' ∨ c = '+' ∨ c = ',' ∨ c = '/' ∨ c = ':' ∨ c = ';' ∨ c = '=' ∨
      c = '?' ∨ c = '@' then
    match mode with
    | Encoding.encodePath => c = '?'
    | Encoding.encodePathSegment => c = '/' ∨ c = ';' ∨ c = ',' ∨ c = '?'
    | Encoding.encodeUserPassword => c = '@' ∨ c = '/' ∨ c = '?' ∨ c = ':'
    | Encoding.encodeQueryComponent => true
    | Encoding.encodeFragment => false
    | _ => true
  else if mode = Encoding.encodeFragment ∧ (c = '!' ∨ c = '(' ∨ c = ')' ∨ c = '*') then false
  else true

/-- Go `unescape`: decode `%XX` (and `+` in query components), with the checks
that `net/url` makes on host and zone text. -/
def unescape (mode : Encoding) : GoString → Except UrlError GoString
  | [] => Except.ok []
  | c :: rest =>
    if c = '%' then
      match rest with
      | a :: b :: rest2 =>
        if !(ishex a && ishex b) then Except.error (UrlError.escapeError [c, a, b])
        else if mode = Encoding.encodeHost ∧ unhex a < 8 ∧ [c, a, b] ≠ ['%', '2', '5'] then
          Except.error (UrlError.escapeError [c, a, b])
        else if mode = Encoding.encodeZone ∧ [c, a, b] ≠ ['%', '2', '5'] ∧
            Char.ofNat (unhex a * 16 + unhex b) ≠ ' ' ∧
            shouldEscape (Char.ofNat (unhex a * 16 + unhex b)) Encoding.encodeHost then
          Except.error (UrlError.escapeError [c, a, b])
        else
          match unescape mode rest2 with
          | Except.ok t => Except.ok (Char.ofNat (unhex a * 16 + unhex b) :: t)
          | Except.error e => Except.error e
      | _ => Except.error (UrlError.escapeError (c :: rest))
    else if (mode = Encoding.encodeHost ∨ mode = Encoding.encodeZone) ∧ c.toNat < 128 ∧
        shouldEscape c Encoding.encodeHost then
      Except.error (UrlError.invalidHostError [c])
    else
      match unescape mode rest with
      | Except.ok t =>
        Except.ok ((if c = '+' ∧ mode = Encoding.encodeQueryComponent then ' ' else c) :: t)
      | Except.error e => Except.error e

/-- Go `escape`: write every byte that `shouldEscape` selects as `%XX`. -/
def escape (mode : Encoding) : GoString → GoString
  | [] => []
  | c :: rest =>
    if c = ' ' ∧ mode = Encoding.encodeQueryComponent then '+' :: escape mode rest
    else if shouldEscape c mode then
      '%' :: upperhex (c.toNat / 16 % 16) :: upperhex (c.toNat % 16) :: escape mode rest
    else c :: escape mode rest

/-- Go `validEncoded`. -/
def validEncoded (mode : Encoding) (s : GoString) : Bool :=
  s.all (fun c =>
    if c = '!' ∨ c = '$' ∨ c = '&' ∨ c = Char.ofNat 39 ∨ c = '(' ∨ c = ')' ∨ c = '*' ∨ c = '+' ∨
        c = ',' ∨ c = ';' ∨ c = '=' ∨ c = ':' ∨ c = '@' then true
    else if c = '[' ∨ c = ']' then true
    else if c = '%' then true
    else !shouldEscape c mode)

/-- Go `stringContainsCTLByte`. -/
def stringContainsCTLByte (s : GoString) : Bool :=
  s.any (fun b => b.toNat < 32 || b.toNat = 127)

/-- Go `validOptionalPort`: empty, or a colon followed by decimal digits. -/
def validOptionalPort : GoString → Bool
  | [] => true
  | c :: digits => c = ':' && digits.all (fun b => '0' ≤ b ∧ b ≤ '9')

/-- Go `validUserinfo`. -/
def validUserinfo (s : GoString) : Bool :=
  s.all (fun r =>
    isAlphaNum r ||
      (r = '-' ∨ r = '.' ∨ r = '_' ∨ r = ':' ∨ r = '~' ∨ r = '!' ∨ r = '$' ∨ r = '&' ∨
        r = Char.ofNat 39 ∨ r = '(' ∨ r = ')' ∨ r = '*' ∨ r = '+' ∨ r = ',' ∨ r = ';' ∨ r = '=' ∨
        r = '%' ∨ r = '@'))

/-- Go `url.Userinfo`. -/
structure Userinfo where
  username : GoString
  password : GoString
  passwordSet : Bool
  deriving DecidableEq, Repr

/-- Go `url.URL`. -/
structure URL where
  Scheme : GoString := []
  Opaque : GoString := []
  User : Option Userinfo := none
  Host : GoString := []
  Path : GoString := []
  RawPath : GoString := []
  OmitHost : Bool := false
  ForceQuery : Bool := false
  RawQuery : GoString := []
  Fragment : GoString := []
  RawFragment : GoString := []
  deriving DecidableEq, Repr

/-- Go `getScheme`: split a leading `scheme:` off, when there is one. -/
def getSchemeAux (rawURL : GoString) : Nat → GoString → GoString →
    Except UrlError (GoString × GoString)
  | _, _, [] => Except.ok ([], rawURL)
  | i, seen, c :: rest =>
    if ('a' ≤ c ∧ c ≤ 'z') ∨ ('A' ≤ c ∧ c ≤ 'Z') then getSchemeAux rawURL (i + 1) (seen ++ [c]) rest
    else if ('0' ≤ c ∧ c ≤ '9') ∨ c = '+' ∨ c = '-' ∨ c = '.' then
      if i = 0 then Except.ok ([], rawURL)
      else getSchemeAux rawURL (i + 1) (seen ++ [c]) rest
    else if c = ':' then
      if i = 0 then Except.error UrlError.missingProtocolScheme
      else Except.ok (seen, rest)
    else Except.ok ([], rawURL)

/-- Go `getScheme`. -/
def getScheme (rawURL : GoString) : Except UrlError (GoString × GoString) :=
  getSchemeAux rawURL 0 [] rawURL

/-- Go `parseHost`. -/
def parseHost (host : GoString) : Except UrlError GoString :=
  if hasPrefix host ['['] then
    match cutLast ']' host with
    | none => Except.error UrlError.missingBracket
    | some (beforeBracket, colonPort) =>
      if !validOptionalPort colonPort then Except.error (UrlError.invalidPort colonPort)
      else
        match index ['%', '2', '5'] beforeBracket with
        | some zone =>
          match unescape Encoding.encodeHost (beforeBracket.take zone) with
          | Except.error e => Except.error e
          | Except.ok host1 =>
            match unescape Encoding.encodeZone (beforeBracket.drop zone) with
            | Except.error e => Except.error e
            | Except.ok host2 =>
              match unescape Encoding.encodeHost (']' :: colonPort) with
              | Except.error e => Except.error e
              | Except.ok host3 => Except.ok (host1 ++ host2 ++ host3)
        | none => unescape Encoding.encodeHost host
  else
    match cutLast ':' host with
    | some (_, port) =>
      if !validOptionalPort (':' :: port) then Except.error (UrlError.invalidPort (':' :: port))
      else unescape Encoding.encodeHost host
    | none => unescape Encoding.encodeHost host

/-- Go `parseAuthority`. -/
def parseAuthority (authority : GoString) : Except UrlError (Option Userinfo × GoString) :=
  match cutLast '@' authority with
  | none =>
    match parseHost authority with
    | Except.error e => Except.error e
    | Except.ok host => Except.ok (none, host)
  | some (userinfo, hostText) =>
    match parseHost hostText with
    | Except.error e => Except.error e
    | Except.ok host =>
      if !validUserinfo userinfo then Except.error UrlError.invalidUserinfo
      else if !contains userinfo [':'] then
        match unescape Encoding.encodeUserPassword userinfo with
        | Except.error e => Except.error e
        | Except.ok name =>
          Except.ok (some { username := name, password := [], passwordSet := false }, host)
      else
        let parts := cut ':' userinfo
        match unescape Encoding.encodeUserPassword parts.1 with
        | Except.error e => Except.error e
        | Except.ok username =>
          match unescape Encoding.encodeUserPassword parts.2.1 with
          | Except.error e => Except.error e
          | Except.ok password =>
            Except.ok (some { username := username, password := password, passwordSet := true },
              host)

/-- Go `(*URL).setPath`. -/
def URL.setPath (u : URL) (p : GoString) : Except UrlError URL :=
  match unescape Encoding.encodePath p with
  | Except.error e => Except.error e
  | Except.ok path =>
    if p = escape Encoding.encodePath path then Except.ok { u with Path := path, RawPath := [] }
    else Except.ok { u with Path := path, RawPath := p }

/-- Go `(*URL).setFragment`. -/
def URL.setFragment (u : URL) (f : GoString) : Except UrlError URL :=
  match unescape Encoding.encodeFragment f with
  | Except.error e => Except.error e
  | Except.ok frag =>
    if f = escape Encoding.encodeFragment frag then
      Except.ok { u with Fragment := frag, RawFragment := [] }
    else Except.ok { u with Fragment := frag, RawFragment := f }

/-- Go `parse(rawURL, viaRequest)` with `viaRequest = false`, the call that
`url.Parse` makes. -/
def parse (rawURL : GoString) : Except UrlError URL :=
  if stringContainsCTLByte rawURL then Except.error UrlError.invalidControlCharacter
  else if rawURL = ['*'] then Except.ok { Path := ['*'] }
  else
    match getScheme rawURL with
    | Except.error e => Except.error e
    | Except.ok (scheme, rest) =>
      let url : URL := { Scheme := toLower scheme }
      let q : URL × GoString :=
        if hasSuffix rest ['?'] ∧ count '?' rest = 1 then
          ({ url with ForceQuery := true }, rest.dropLast)
        else ({ url with RawQuery := (cut '?' rest).2.1 }, (cut '?' rest).1)
      let url := q.1
      let rest := q.2
      if !hasPrefix rest ['/'] ∧ url.Scheme ≠ [] then Except.ok { url with Opaque := rest }
      else if !hasPrefix rest ['/'] ∧ contains (cut '/' rest).1 [':'] then
        Except.error UrlError.firstPathSegmentColon
      else if (url.Scheme ≠ [] ∨ !hasPrefix rest ['/', '/', '/']) ∧ hasPrefix rest ['/', '/'] then
        let authority := (rest.drop 2).takeWhile (fun c => c ≠ '/')
        let rest := (rest.drop 2).dropWhile (fun c => c ≠ '/')
        match parseAuthority authority with
        | Except.error e => Except.error e
        | Except.ok (user, host) => URL.setPath { url with User := user, Host := host } rest
      else if url.Scheme ≠ [] ∧ hasPrefix rest ['/'] then
        URL.setPath { url with OmitHost := true } rest
      else URL.setPath url rest

/-- Go `url.Parse`: cut the fragment off, parse the rest, then set the fragment. -/
def Parse (rawURL : GoString) : Except UrlError URL :=
  let parts := cut '#' rawURL
  match parse parts.1 with
  | Except.error e => Except.error e
  | Except.ok url =>
    if parts.2.1 = [] then Except.ok url
    else URL.setFragment url parts.2.1

/-- Go `splitHostPort`. -/
def splitHostPort (hostPort : GoString) : GoString × GoString :=
  let r : GoString × GoString :=
    match cutLast ':' hostPort with
    | some (host, port) =>
      if validOptionalPort (':' :: port) then (host, port) else (hostPort, [])
    | none => (hostPort, [])
  if hasPrefix r.1 ['['] ∧ hasSuffix r.1 [']'] then ((r.1.drop 1).dropLast, r.2)
  else r

/-- Go `(*URL).Port`. -/
def URL.Port (u : URL) : GoString := (splitHostPort u.Host).2

/-- Go `(*Userinfo).String`. -/
def Userinfo.String (u : Userinfo) : GoString :=
  let s := escape Encoding.encodeUserPassword u.username
  if u.passwordSet then s ++ [':'] ++ escape Encoding.encodeUserPassword u.password
  else s

/-- The test `p, err := unescape(raw, mode); err == nil && p == decoded` of
`EscapedPath` and `EscapedFragment`. -/
def unescapesTo (mode : Encoding) (raw decoded : GoString) : Bool :=
  match unescape mode raw with
  | Except.ok p => p = decoded
  | Except.error _ => false

/-- Go `(*URL).EscapedPath`. -/
def URL.EscapedPath (u : URL) : GoString :=
  if u.RawPath ≠ [] ∧ validEncoded Encoding.encodePath u.RawPath ∧
      unescapesTo Encoding.encodePath u.RawPath u.Path then u.RawPath
  else if u.Path = ['*'] then ['*']
  else escape Encoding.encodePath u.Path

/-- Go `(*URL).EscapedFragment`. -/
def URL.EscapedFragment (u : URL) : GoString :=
  if u.RawFragment ≠ [] ∧ validEncoded Encoding.encodeFragment u.RawFragment ∧
      unescapesTo Encoding.encodeFragment u.RawFragment u.Fragment then u.RawFragment
  else escape Encoding.encodeFragment u.Fragment

/-- The branch of `(*URL).String` for a URL that is not opaque: authority and
path are appended to `buf`, which holds the scheme and its colon. -/
def URL.writeHier (u : URL) (buf : GoString) : GoString :=
  let buf :=
    if u.Scheme ≠ [] ∨ u.Host ≠ [] ∨ u.User.isSome then
      if u.OmitHost ∧ u.Host = [] ∧ u.User.isNone then buf
      else
        let buf := if u.Host ≠ [] ∨ u.Path ≠ [] ∨ u.User.isSome then buf ++ ['/', '/'] else buf
        let buf :=
          match u.User with
          | some ui => buf ++ Userinfo.String ui ++ ['@']
          | none => buf
        if u.Host ≠ [] then buf ++ escape Encoding.encodeHost u.Host else buf
    else buf
  let path := URL.EscapedPath u
  let buf := if path ≠ [] ∧ path.head? ≠ some '/' ∧ u.Host ≠ [] then buf ++ ['/'] else buf
  let buf := if buf = [] ∧ contains (cut '/' path).1 [':'] then buf ++ ['.', '/'] else buf
  buf ++ path

/-- Go `(*URL).String`. -/
def URL.String (u : URL) : GoString :=
  let buf : GoString := if u.Scheme ≠ [] then u.Scheme ++ [':'] else []
  let buf := if u.Opaque ≠ [] then buf ++ u.Opaque else URL.writeHier u buf
  let buf := if u.ForceQuery ∨ u.RawQuery ≠ [] then buf ++ ['?'] ++ u.RawQuery else buf
  if u.Fragment ≠ [] then buf ++ ['#'] ++ URL.EscapedFragment u else buf

/-- Embedding of `validateAuroraAddress`. -/
def validateAuroraAddress (address : GoString) : Except AddressError GoString :=
  let address :=
    if !contains address [':', '/', '/'] then ['h', 't', 't', 'p', ':', '/', '/'] ++ address
    else address
  match Parse address with
  | Except.error err => Except.error (AddressError.parsingUrl err)
  | Except.ok u =>
    let u := if u.Path = [] then { u with Path := ['/', 'a', 'p', 'i'] } else u
    let u := if URL.Port u = [] then { u with Host := u.Host ++ [':', '8', '0', '8', '1'] } else u
    if ¬(u.Scheme = ['h', 't', 't', 'p'] ∨ u.Scheme = ['h', 't', 't', 'p', 's']) then
      Except.error (AddressError.unsupportedProtocol u.Scheme)
    else if u.Path ≠ ['/', 'a', 'p', 'i'] then Except.error (AddressError.unexpectedPath u.Path)
    else Except.ok (URL.String u)


/-- A byte of a plain host name: a letter, a digit, a hyphen or a dot. -/
def isHostNameByte (c : Char) : Bool := isAlphaNum c || c = '-' || c = '.'

/-- A bare host name: no scheme, no port, no path, only host name bytes. -/
def isHostName (h : GoString) : Prop := ∀ c ∈ h, isHostNameByte c = true

/-- A byte of a plain host or host:port text. -/
def isAuthorityByte (c : Char) : Prop := isHostNameByte c = true ∨ c = ':'

/-- A port number: one or more decimal digits. -/
def isPortNumber (p : GoString) : Prop := p ≠ [] ∧ ∀ c ∈ p, '0' ≤ c ∧ c ≤ '9'

/-- The canonical form `scheme://host:port/api` of the specification: the
scheme is http or https, the host is not empty, a port is present, and the
text ends with the path `/api`. -/
def isCanonicalEndpoint (s : GoString) : Prop :=
  ∃ scheme host port : GoString,
    s = scheme ++ [':', '/', '/'] ++ host ++ [':'] ++ port ++ ['/', 'a', 'p', 'i'] ∧
      (scheme = ['h', 't', 't', 'p'] ∨ scheme = ['h', 't', 't', 'p', 's']) ∧
      host ≠ [] ∧ port ≠ []

/-- The int32 running remainder after each subtraction of a batch size, in
the words of the specification: the first entry is the instance count minus
the first size, the next one that remainder minus the second size, and so on. -/
def runningRemainders (updatingInstances : Int) : List Int → List Int
  | [] => []
  | size :: rest =>
    wrapInt32 (updatingInstances - size) ::
      runningRemainders (wrapInt32 (updatingInstances - size)) rest

/-! ## Fields of the update request, for frame and commutation properties -/

/-- The fields of the request that the builder of `jobUpdate.go` writes:
`InstanceCount` of `aurora.JobUpdateRequest` and the ten fields of
`aurora.JobUpdateSettings`. -/
inductive RequestField where
  | InstanceCount
  | UpdateGroupSize
  | MaxPerInstanceFailures
  | MaxFailedInstances
  | MinWaitInInstanceRunningMs
  | RollbackOnFailure
  | UpdateOnlyTheseInstances
  | WaitForBatchCompletion
  | BlockIfNoPulsesAfterMs
  | UpdateStrategy
  | SlaAware
  deriving DecidableEq, Repr

/-- The value held by a field of the request. -/
inductive FieldValue where
  | int (v : Int)
  | bool (v : Bool)
  | optInt (v : Option Int)
  | optBool (v : Option Bool)
  | ranges (v : List Range)
  | strategy (v : Option JobUpdateStrategy)
  deriving DecidableEq, Repr

/-- Read one field of the request. -/
def JobUpdateRequest.get (r : JobUpdateRequest) : RequestField → FieldValue
  | RequestField.InstanceCount => FieldValue.int r.InstanceCount
  | RequestField.UpdateGroupSize => FieldValue.int r.Settings.UpdateGroupSize
  | RequestField.MaxPerInstanceFailures => FieldValue.int r.Settings.MaxPerInstanceFailures
  | RequestField.MaxFailedInstances => FieldValue.int r.Settings.MaxFailedInstances
  | RequestField.MinWaitInInstanceRunningMs =>
    FieldValue.int r.Settings.MinWaitInInstanceRunningMs
  | RequestField.RollbackOnFailure => FieldValue.bool r.Settings.RollbackOnFailure
  | RequestField.UpdateOnlyTheseInstances =>
    FieldValue.ranges r.Settings.UpdateOnlyTheseInstances
  | RequestField.WaitForBatchCompletion => FieldValue.bool r.Settings.WaitForBatchCompletion
  | RequestField.BlockIfNoPulsesAfterMs => FieldValue.optInt r.Settings.BlockIfNoPulsesAfterMs
  | RequestField.UpdateStrategy => FieldValue.strategy r.Settings.UpdateStrategy
  | RequestField.SlaAware => FieldValue.optBool r.Settings.SlaAware

/-- The request field that a builder call assigns; `none` for a task
pass-through call, which assigns no request field. -/
def BuilderCall.target {Task : Type} : BuilderCall Task → Option RequestField
  | .instanceCount _ => some RequestField.InstanceCount
  | .batchSize _ => some RequestField.UpdateGroupSize
  | .watchTime _ => some RequestField.MinWaitInInstanceRunningMs
  | .waitForBatchCompletion _ => some RequestField.WaitForBatchCompletion
  | .maxPerInstanceFailures _ => some RequestField.MaxPerInstanceFailures
  | .maxFailedInstances _ => some RequestField.MaxFailedInstances
  | .rollbackOnFail _ => some RequestField.RollbackOnFailure
  | .pulseIntervalTimeout _ => some RequestField.BlockIfNoPulsesAfterMs
  | .batchUpdateStrategy _ _ => some RequestField.UpdateStrategy
  | .queueUpdateStrategy _ => some RequestField.UpdateStrategy
  | .variableBatchStrategy _ _ => some RequestField.UpdateStrategy
  | .slaAware _ => some RequestField.SlaAware
  | .addInstanceRange _ _ => some RequestField.UpdateOnlyTheseInstances
  | .passThrough _ => none

/-- Whether a builder call is one of the three strategy setters. -/
def BuilderCall.isStrategyCall {Task : Type} : BuilderCall Task → Bool
  | .batchUpdateStrategy _ _ => true
  | .queueUpdateStrategy _ => true
  | .variableBatchStrategy _ _ => true
  | _ => false

/-! ## Task pass-through wrappers (`jobUpdate.go`)

The methods of `AuroraTask` are declared in `task.go`; each is a parameter:
its effect on the task, for given arguments. -/

/-- Modelled from the spec: the generated record `aurora.PartitionPolicy`, as
`(*JobUpdate).PartitionPolicy` fills it. -/
structure PartitionPolicy where
  Reschedule : Bool
  DelaySecs : Option Int
  deriving DecidableEq, Repr

/-- The methods of `AuroraTask` that the wrappers of `jobUpdate.go` call, as
effects on the task. `F64`, `ContainerT`, `ThermosT` and `ErrorT` stand for
the Go types `float64`, `Container`, `ThermosExecutor` and `error`. -/
structure TaskMethods (Task F64 ContainerT ThermosT ErrorT : Type) where
  Environment : GoString → Task → Task
  Role : GoString → Task → Task
  Name : GoString → Task → Task
  ExecutorName : GoString → Task → Task
  ExecutorData : GoString → Task → Task
  CPU : F64 → Task → Task
  RAM : Int → Task → Task
  Disk : Int → Task → Task
  Tier : GoString → Task → Task
  MaxFailure : Int → Task → Task
  IsService : Bool → Task → Task
  AddURIs : Bool → Bool → List GoString → Task → Task
  AddLabel : GoString → GoString → Task → Task
  AddNamedPorts : List GoString → Task → Task
  AddPorts : Int → Task → Task
  AddValueConstraint : GoString → Bool → List GoString → Task → Task
  AddLimitConstraint : GoString → Int → Task → Task
  AddDedicatedConstraint : GoString → GoString → Task → Task
  Container : ContainerT → Task → Task
  ThermosExecutor : ThermosT → Task → Task
  PartitionPolicy : PartitionPolicy → Task → Task
  BuildThermosPayload : Task → Task × Option ErrorT

section PassThrough

variable {Task F64 ContainerT ThermosT ErrorT : Type}

/-- Embedding of `(*JobUpdate).Environment`. -/
def JobUpdate.Environment (m : TaskMethods Task F64 ContainerT ThermosT ErrorT) (env : GoString)
    (j : JobUpdate Task) : JobUpdate Task :=
  j.passThrough (m.Environment env)

/-- Embedding of `(*JobUpdate).Role`. -/
def JobUpdate.Role (m : TaskMethods Task F64 ContainerT ThermosT ErrorT) (role : GoString)
    (j : JobUpdate Task) : JobUpdate Task :=
  j.passThrough (m.Role role)

/-- Embedding of `(*JobUpdate).Name`. -/
def JobUpdate.Name (m : TaskMethods Task F64 ContainerT ThermosT ErrorT) (name : GoString)
    (j : JobUpdate Task) : JobUpdate Task :=
  j.passThrough (m.Name name)

/-- Embedding of `(*JobUpdate).ExecutorName`. -/
def JobUpdate.ExecutorName (m : TaskMethods Task F64 ContainerT ThermosT ErrorT)
    (name : GoString) (j : JobUpdate Task) : JobUpdate Task :=
  j.passThrough (m.ExecutorName name)

/-- Embedding of `(*JobUpdate).ExecutorData`. -/
def JobUpdate.ExecutorData (m : TaskMethods Task F64 ContainerT ThermosT ErrorT)
    (data : GoString) (j : JobUpdate Task) : JobUpdate Task :=
  j.passThrough (m.ExecutorData data)

/-- Embedding of `(*JobUpdate).CPU`. -/
def JobUpdate.CPU (m : TaskMethods Task F64 ContainerT ThermosT ErrorT) (cpus : F64)
    (j : JobUpdate Task) : JobUpdate Task :=
  j.passThrough (m.CPU cpus)

/-- Embedding of `(*JobUpdate).RAM`. -/
def JobUpdate.RAM (m : TaskMethods Task F64 ContainerT ThermosT ErrorT) (ram : Int)
    (j : JobUpdate Task) : JobUpdate Task :=
  j.passThrough (m.RAM ram)

/-- Embedding of `(*JobUpdate).Disk`. -/
def JobUpdate.Disk (m : TaskMethods Task F64 ContainerT ThermosT ErrorT) (disk : Int)
    (j : JobUpdate Task) : JobUpdate Task :=
  j.passThrough (m.Disk disk)

/-- Embedding of `(*JobUpdate).Tier`. -/
def JobUpdate.Tier (m : TaskMethods Task F64 ContainerT ThermosT ErrorT) (tier : GoString)
    (j : JobUpdate Task) : JobUpdate Task :=
  j.passThrough (m.Tier tier)

/-- Embedding of `(*JobUpdate).TaskMaxFailure`, which calls `MaxFailure` of the task. -/
def JobUpdate.TaskMaxFailure (m : TaskMethods Task F64 ContainerT ThermosT ErrorT)
    (maxFail : Int) (j : JobUpdate Task) : JobUpdate Task :=
  j.passThrough (m.MaxFailure maxFail)

/-- Embedding of `(*JobUpdate).IsService`. -/
def JobUpdate.IsService (m : TaskMethods Task F64 ContainerT ThermosT ErrorT) (isService : Bool)
    (j : JobUpdate Task) : JobUpdate Task :=
  j.passThrough (m.IsService isService)

/-- Embedding of `(*JobUpdate).AddURIs`. -/
def JobUpdate.AddURIs (m : TaskMethods Task F64 ContainerT ThermosT ErrorT)
    (extract cache : Bool) (values : List GoString) (j : JobUpdate Task) : JobUpdate Task :=
  j.passThrough (m.AddURIs extract cache values)

/-- Embedding of `(*JobUpdate).AddLabel`. -/
def JobUpdate.AddLabel (m : TaskMethods Task F64 ContainerT ThermosT ErrorT)
    (key value : GoString) (j : JobUpdate Task) : JobUpdate Task :=
  j.passThrough (m.AddLabel key value)

/-- Embedding of `(*JobUpdate).AddNamedPorts`. -/
def JobUpdate.AddNamedPorts (m : TaskMethods Task F64 ContainerT ThermosT ErrorT)
    (names : List GoString) (j : JobUpdate Task) : JobUpdate Task :=
  j.passThrough (m.AddNamedPorts names)

/-- Embedding of `(*JobUpdate).AddPorts`. -/
def JobUpdate.AddPorts (m : TaskMethods Task F64 ContainerT ThermosT ErrorT) (num : Int)
    (j : JobUpdate Task) : JobUpdate Task :=
  j.passThrough (m.AddPorts num)

/-- Embedding of `(*JobUpdate).AddValueConstraint`. -/
def JobUpdate.AddValueConstraint (m : TaskMethods Task F64 ContainerT ThermosT ErrorT)
    (name : GoString) (negated : Bool) (values : List GoString) (j : JobUpdate Task) :
    JobUpdate Task :=
  j.passThrough (m.AddValueConstraint name negated values)

/-- Embedding of `(*JobUpdate).AddLimitConstraint`. -/
def JobUpdate.AddLimitConstraint (m : TaskMethods Task F64 ContainerT ThermosT ErrorT)
    (name : GoString) (limit : Int) (j : JobUpdate Task) : JobUpdate Task :=
  j.passThrough (m.AddLimitConstraint name limit)

/-- Embedding of `(*JobUpdate).AddDedicatedConstraint`. -/
def JobUpdate.AddDedicatedConstraint (m : TaskMethods Task F64 ContainerT ThermosT ErrorT)
    (role name : GoString) (j : JobUpdate Task) : JobUpdate Task :=
  j.passThrough (m.AddDedicatedConstraint role name)

/-- Embedding of `(*JobUpdate).Container`. -/
def JobUpdate.Container (m : TaskMethods Task F64 ContainerT ThermosT ErrorT)
    (container : ContainerT) (j : JobUpdate Task) : JobUpdate Task :=
  j.passThrough (m.Container container)

/-- Embedding of `(*JobUpdate).ThermosExecutor`. -/
def JobUpdate.ThermosExecutor (m : TaskMethods Task F64 ContainerT ThermosT ErrorT)
    (thermos : ThermosT) (j : JobUpdate Task) : JobUpdate Task :=
  j.passThrough (m.ThermosExecutor thermos)

/-- Embedding of `(*JobUpdate).BuildThermosPayload`: the task method runs on
the builder's task and its error, if any, is returned as it is. -/
def JobUpdate.BuildThermosPayload (m : TaskMethods Task F64 ContainerT ThermosT ErrorT)
    (j : JobUpdate Task) : JobUpdate Task × Option ErrorT :=
  ({ j with task := (m.BuildThermosPayload j.task).1 }, (m.BuildThermosPayload j.task).2)

/-- Embedding of `(*JobUpdate).PartitionPolicy`. -/
def JobUpdate.PartitionPolicy (m : TaskMethods Task F64 ContainerT ThermosT ErrorT)
    (reschedule : Bool) (delay : Int) (j : JobUpdate Task) : JobUpdate Task :=
  j.passThrough (m.PartitionPolicy { Reschedule := reschedule, DelaySecs := some delay })

/-- One call of a task pass-through mutator, with its arguments. -/
inductive PassThroughCall (F64 ContainerT ThermosT : Type) where
  | environment (env : GoString)
  | role (role : GoString)
  | name (name : GoString)
  | executorName (name : GoString)
  | executorData (data : GoString)
  | cpu (cpus : F64)
  | ram (ram : Int)
  | disk (disk : Int)
  | tier (tier : GoString)
  | taskMaxFailure (maxFail : Int)
  | isService (isService : Bool)
  | addURIs (extract cache : Bool) (values : List GoString)
  | addLabel (key value : GoString)
  | addNamedPorts (names : List GoString)
  | addPorts (num : Int)
  | addValueConstraint (name : GoString) (negated : Bool) (values : List GoString)
  | addLimitConstraint (name : GoString) (limit : Int)
  | addDedicatedConstraint (role name : GoString)
  | container (container : ContainerT)
  | thermosExecutor (thermos : ThermosT)
  | partitionPolicy (reschedule : Bool) (delay : Int)

/-- The wrapper of `jobUpdate.go` that a pass-through call stands for. -/
def PassThroughCall.run (m : TaskMethods Task F64 ContainerT ThermosT ErrorT) :
    PassThroughCall F64 ContainerT ThermosT → JobUpdate Task → JobUpdate Task
  | .environment env => JobUpdate.Environment m env
  | .role r => JobUpdate.Role m r
  | .name n => JobUpdate.Name m n
  | .executorName n => JobUpdate.ExecutorName m n
  | .executorData d => JobUpdate.ExecutorData m d
  | .cpu c => JobUpdate.CPU m c
  | .ram r => JobUpdate.RAM m r
  | .disk d => JobUpdate.Disk m d
  | .tier t => JobUpdate.Tier m t
  | .taskMaxFailure f => JobUpdate.TaskMaxFailure m f
  | .isService s => JobUpdate.IsService m s
  | .addURIs e c v => JobUpdate.AddURIs m e c v
  | .addLabel k v => JobUpdate.AddLabel m k v
  | .addNamedPorts n => JobUpdate.AddNamedPorts m n
  | .addPorts n => JobUpdate.AddPorts m n
  | .addValueConstraint n g v => JobUpdate.AddValueConstraint m n g v
  | .addLimitConstraint n l => JobUpdate.AddLimitConstraint m n l
  | .addDedicatedConstraint r n => JobUpdate.AddDedicatedConstraint m r n
  | .container c => JobUpdate.Container m c
  | .thermosExecutor t => JobUpdate.ThermosExecutor m t
  | .partitionPolicy r d => JobUpdate.PartitionPolicy m r d

end PassThrough

/-! ## Status classification tables (`util.go`)

The six source lists (`aurora.ACTIVE_STATES`, ...) and the two status types
are generated constants outside `util.go`; they are parameters. A Go
`map[K]bool` is a finite map from keys to stored values; reading a key that
is absent yields `false`. -/

/-- A Go `map[K]bool`: the stored value of each key, if any. -/
def StatusTable (K : Type) : Type := K → Option Bool

/-- The empty map of `make(map[K]bool)`. -/
def StatusTable.make (K : Type) : StatusTable K := fun _ => none

/-- The assignment `table[key] = value`. -/
def StatusTable.set {K : Type} [DecidableEq K] (table : StatusTable K) (key : K)
    (value : Bool) : StatusTable K :=
  fun k => if k = key then some value else table k

/-- The read `table[key]`, which is `false` for an absent key. -/
def StatusTable.read {K : Type} (table : StatusTable K) (key : K) : Bool :=
  (table key).getD false

/-- One loop of `init`: `for _, status := range states { table[status] = true }`. -/
def fillTable {K : Type} [DecidableEq K] (states : List K) (table : StatusTable K) :
    StatusTable K :=
  states.foldl (fun acc status => acc.set status true) table

/-- The six source lists of package `aurora` that `init` ranges over. -/
structure AuroraStates (ScheduleStatus JobUpdateStatus : Type) where
  ACTIVE_STATES : List ScheduleStatus
  SLAVE_ASSIGNED_STATES : List ScheduleStatus
  LIVE_STATES : List ScheduleStatus
  TERMINAL_STATES : List ScheduleStatus
  ACTIVE_JOB_UPDATE_STATES : List JobUpdateStatus
  AWAITNG_PULSE_JOB_UPDATE_STATES : List JobUpdateStatus

/-- The six package-level tables of `util.go`. -/
structure StatusTables (ScheduleStatus JobUpdateStatus : Type) where
  ActiveStates : StatusTable ScheduleStatus
  SlaveAssignedStates : StatusTable ScheduleStatus
  LiveStates : StatusTable ScheduleStatus
  TerminalStates : StatusTable ScheduleStatus
  ActiveJobUpdateStates : StatusTable JobUpdateStatus
  AwaitingPulseJobUpdateStates : StatusTable JobUpdateStatus

/-- Embedding of the package initialisation of `util.go`: the six `make`
declarations followed by `func init()`. -/
def init {ScheduleStatus JobUpdateStatus : Type} [DecidableEq ScheduleStatus]
    [DecidableEq JobUpdateStatus] (aurora : AuroraStates ScheduleStatus JobUpdateStatus) :
    StatusTables ScheduleStatus JobUpdateStatus :=
  { ActiveStates := fillTable aurora.ACTIVE_STATES (StatusTable.make ScheduleStatus)
    SlaveAssignedStates :=
      fillTable aurora.SLAVE_ASSIGNED_STATES (StatusTable.make ScheduleStatus)
    LiveStates := fillTable aurora.LIVE_STATES (StatusTable.make ScheduleStatus)
    TerminalStates := fillTable aurora.TERMINAL_STATES (StatusTable.make ScheduleStatus)
    ActiveJobUpdateStates :=
      fillTable aurora.ACTIVE_JOB_UPDATE_STATES (StatusTable.make JobUpdateStatus)
    AwaitingPulseJobUpdateStates :=
      fillTable aurora.AWAITNG_PULSE_JOB_UPDATE_STATES (StatusTable.make JobUpdateStatus) }

/-! ## Deep copies of the source task (`jobUpdate.go` with `task.go`)

`JobUpdateFromAuroraTask` and `JobUpdateFromConfig` copy their argument with
`(*AuroraTask).Clone` and `TaskFromThrift`, which are declared in `task.go`.
Copy isolation is a property of pointers, so this part of the embedding has
an explicit memory: objects live in cells, a pointer is the position of a
cell, and a mutation through a pointer rewrites the cell it points to. The
content of a task configuration and of a Thermos executor is a value that
holds everything reachable from it. -/

/-- The cells that hold the objects of one Go type; a pointer is a position. -/
structure Heap (Obj : Type) where
  cells : List Obj

/-- Read through a pointer. -/
def Heap.read {Obj : Type} (h : Heap Obj) (p : Nat) : Option Obj := h.cells[p]?

/-- Write through a pointer. -/
def Heap.write {Obj : Type} (h : Heap Obj) (p : Nat) (v : Obj) : Heap Obj :=
  { cells := h.cells.set p v }

/-- Allocate a new cell; the result is the new heap and the new pointer. -/
def Heap.alloc {Obj : Type} (h : Heap Obj) (v : Obj) : Heap Obj × Nat :=
  ({ cells := h.cells ++ [v] }, h.cells.length)

/-- Modelled from the spec: the record `AuroraTask` of `task.go`, a pointer to
its `aurora.TaskConfig` and an optional Thermos executor. -/
structure AuroraTaskObj (Thermos : Type) where
  task : Nat
  thermos : Option Thermos

/-- The memory: the cells of the task configurations and of the tasks. -/
structure Memory (Config Thermos : Type) where
  configs : Heap Config
  tasks : Heap (AuroraTaskObj Thermos)

/-- The builder in memory: the pointer to its task and the `TaskConfig`
pointer stored in its request, with the update settings. -/
structure JobUpdateRef where
  task : Nat
  requestTaskConfig : Nat
  Settings : JobUpdateSettings

section DeepCopy

variable {Config Thermos : Type}

/-- Modelled from the spec: `TaskFromThrift` of `task.go`, a deep copy. The
content of the configuration is copied into a new cell and a new task that
points to the new cell is allocated; nothing is shared with the source. -/
def Memory.TaskFromThrift (mem : Memory Config Thermos) (config : Nat) :
    Option (Memory Config Thermos × Nat) :=
  match mem.configs.read config with
  | none => none
  | some v =>
    let c := mem.configs.alloc v
    let t := mem.tasks.alloc { task := c.2, thermos := none }
    some ({ configs := c.1, tasks := t.1 }, t.2)

/-- Modelled from the spec: `(*AuroraTask).Clone` of `task.go`, a deep copy.
The configuration is copied with `TaskFromThrift` and the Thermos executor,
when there is one, is copied into the new task. -/
def Memory.Clone (mem : Memory Config Thermos) (task : Nat) :
    Option (Memory Config Thermos × Nat) :=
  match mem.tasks.read task with
  | none => none
  | some obj =>
    match mem.TaskFromThrift obj.task with
    | none => none
    | some (mem1, newTask) =>
      match mem1.tasks.read newTask with
      | none => none
      | some newObj =>
        some ({ mem1 with tasks := mem1.tasks.write newTask { newObj with thermos := obj.thermos } },
          newTask)

/-- The `TaskConfig` pointer of a task, `(*AuroraTask).TaskConfig` of `task.go`. -/
def Memory.TaskConfig (mem : Memory Config Thermos) (task : Nat) : Option Nat :=
  (mem.tasks.read task).map (fun obj => obj.task)

/-- Embedding of `JobUpdateFromAuroraTask` on the memory. -/
def Memory.JobUpdateFromAuroraTask (mem : Memory Config Thermos) (task : Nat) :
    Option (Memory Config Thermos × JobUpdateRef) :=
  match mem.Clone task with
  | none => none
  | some (mem1, newTask) =>
    match mem1.TaskConfig newTask with
    | none => none
    | some c =>
      some (mem1, { task := newTask, requestTaskConfig := c, Settings := newUpdateSettings })

/-- Embedding of `JobUpdateFromConfig` on the memory. -/
def Memory.JobUpdateFromConfig (mem : Memory Config Thermos) (task : Nat) :
    Option (Memory Config Thermos × JobUpdateRef) :=
  match mem.TaskFromThrift task with
  | none => none
  | some (mem1, newTask) =>
    match mem1.TaskConfig newTask with
    | none => none
    | some c =>
      some (mem1, { task := newTask, requestTaskConfig := c, Settings := newUpdateSettings })

end DeepCopy

/-! ## Conversion of a duration to milliseconds (`jobUpdate.go`)

`WatchTime` and `PulseIntervalTimeout` compute
`int32(timeout.Seconds() * 1000)`: `(time.Duration).Seconds` of the Go
standard library and a multiplication in `float64`, then a conversion to
`int32`. A finite `float64` is the number `mant * 2 ^ exp`; every operation
returns the float64 nearest to the exact result, ties to the even mantissa
(IEEE 754 binary64, 53 bits of precision, least exponent -1074). All values
that arise from an `int64` duration are far below the overflow threshold
`2 ^ 1024`, so infinities are not modelled. -/

/-- A finite float64 value: the number `mant * 2 ^ exp`. -/
structure F64 where
  mant : Int
  exp : Int
  deriving DecidableEq, Repr

/-- Whether `n / den >= 2 ^ e`, for natural numbers `n` and `den`. -/
def ratioAtLeastPow2 (n den : Nat) (e : Int) : Bool :=
  if 0 ≤ e then den * 2 ^ e.toNat ≤ n else den ≤ n * 2 ^ (-e).toNat

/-- The loop of `log2Floor`: halve `n` until it is below 2, at most `fuel` times. -/
def log2FloorAux : Nat → Nat → Nat
  | 0, _ => 0
  | fuel + 1, n => if n < 2 then 0 else log2FloorAux fuel (n / 2) + 1

/-- The position of the highest set bit of `n`: the integer part of its
binary logarithm, for `n > 0`. -/
def log2Floor (n : Nat) : Nat := log2FloorAux n n

/-- The float64 nearest to the exact ratio `num / den` (`den > 0`), ties to
even: the mantissa has at most 53 bits and the exponent of its last bit is at
least -1074. -/
def F64.round (num : Int) (den : Nat) : F64 :=
  if num = 0 then { mant := 0, exp := 0 }
  else
    let n := num.natAbs
    let e0 : Int := (log2Floor n : Int) - (log2Floor den : Int)
    let e : Int := if ratioAtLeastPow2 n den e0 then e0 else e0 - 1
    let t : Int := max e (-1022) - 52
    let sn : Nat := if t < 0 then n * 2 ^ (-t).toNat else n
    let sd : Nat := if t < 0 then den else den * 2 ^ t.toNat
    let q := sn / sd
    let r := sn % sd
    let q1 := if sd < 2 * r ∨ (2 * r = sd ∧ q % 2 = 1) then q + 1 else q
    { mant := if num < 0 then -(q1 : Int) else (q1 : Int), exp := t }

/-- The conversion `float64(n)` of an integer. -/
def F64.ofInt (n : Int) : F64 := F64.round n 1

/-- The float64 sum `a + b`. -/
def F64.add (a b : F64) : F64 :=
  let e := min a.exp b.exp
  let m := a.mant * 2 ^ (a.exp - e).toNat + b.mant * 2 ^ (b.exp - e).toNat
  if 0 ≤ e then F64.round (m * 2 ^ e.toNat) 1 else F64.round m (2 ^ (-e).toNat)

/-- The float64 product `a * b`. -/
def F64.mul (a b : F64) : F64 :=
  let e := a.exp + b.exp
  let m := a.mant * b.mant
  if 0 ≤ e then F64.round (m * 2 ^ e.toNat) 1 else F64.round m (2 ^ (-e).toNat)

/-- The float64 quotient `a / b`, for a divisor other than zero. -/
def F64.div (a b : F64) : F64 :=
  let e := a.exp - b.exp
  let num := if b.mant < 0 then -a.mant else a.mant
  if 0 ≤ e then F64.round (num * 2 ^ e.toNat) b.mant.natAbs
  else F64.round num (b.mant.natAbs * 2 ^ (-e).toNat)

/-- The conversion `int32(f)`: the value with its fraction cut off. When that
is no `int32` the result depends on the implementation and is `none` here. -/
def F64.toInt32 (a : F64) : Option Int :=
  let v : Int := if 0 ≤ a.exp then a.mant * 2 ^ a.exp.toNat else Int.tdiv a.mant (2 ^ (-a.exp).toNat)
  if -2147483648 ≤ v ∧ v ≤ 2147483647 then some v else none

/-- Go `(time.Duration).Seconds` of a duration in nanoseconds:
`sec := d / Second; nsec := d % Second; return float64(sec) + float64(nsec)/1e9`. -/
def Duration.Seconds (d : Int) : F64 :=
  let sec := Int.tdiv d 1000000000
  let nsec := Int.tmod d 1000000000
  F64.add (F64.ofInt sec) (F64.div (F64.ofInt nsec) (F64.ofInt 1000000000))

/-- The expression `int32(timeout.Seconds() * 1000)` of `WatchTime` and
`PulseIntervalTimeout`. -/
def int32Milliseconds (timeout : Int) : Option Int :=
  F64.toInt32 (F64.mul (Duration.Seconds timeout) (F64.ofInt 1000))

/-- The parameters of the builder with the duration conversion of the Go
code wherever Go defines its result. -/
def TaskOps.withGoConversion {Task TaskConfig : Type} (ops : TaskOps Task TaskConfig) :
    TaskOps Task TaskConfig :=
  { ops with
    durationToMs := fun timeout =>
      match int32Milliseconds timeout with
      | some ms => ms
      | none => ops.durationToMs timeout }

/-- The text that Go `(*URL).String` writes for the user info: the user info
and an `@`, or nothing when there is none. -/
def URL.userinfoText (u : URL) : GoString :=
  match u.User with
  | some ui => Userinfo.String ui ++ ['@']
  | none => []

/-- The text that Go `(*URL).String` writes for the query: a `?` and the raw
query, or nothing when there is none. -/
def URL.queryText (u : URL) : GoString :=
  if u.ForceQuery ∨ u.RawQuery ≠ [] then '?' :: u.RawQuery else []

/-- The text that Go `(*URL).String` writes for the fragment: a `#` and the
escaped fragment, or nothing when there is none. -/
def URL.fragmentText (u : URL) : GoString :=
  if u.Fragment ≠ [] then '#' :: URL.EscapedFragment u else []

/-! ## Theorems: batch progress calculator -/

theorem wrapInt32_of_isInt32 (x : Int) (h : isInt32 x) : wrapInt32 x = x := by
  unfold isInt32 at h
  unfold wrapInt32
  omega

theorem PositiveSizes.tail {s : Int} {rest : List Int} (h : PositiveSizes (s :: rest)) :
    PositiveSizes rest :=
  fun x hx => h x (List.mem_cons_of_mem _ hx)

theorem PositiveSizes.head {s : Int} {rest : List Int} (h : PositiveSizes (s :: rest)) :
    0 < s ∧ s ≤ 2147483647 :=
  h s (List.mem_cons_self _ _)

theorem PositiveSizes.sum_nonneg {bs : List Int} (h : PositiveSizes bs) : 0 ≤ bs.sum := by
  induction bs with
  | nil => simp
  | cons s rest ih =>
    have := h.head
    have := ih h.tail
    simp only [List.sum_cons]
    omega

/-- One iteration of the loop. -/
theorem batchLoop_step (u : Int) (i : Nat) (s : Int) (rest : List Int) :
    batchLoop u i (s :: rest) =
      if wrapInt32 (u - s) ≤ 0 then Sum.inl i
      else batchLoop (wrapInt32 (u - s)) (i + 1) rest := rfl

/-- One loop step on in-range data does not wrap. -/
theorem batchLoop_cons (u : Int) (i : Nat) (s : Int) (rest : List Int)
    (hu : 1 ≤ u ∧ u ≤ 2147483647) (hs : 0 < s ∧ s ≤ 2147483647) :
    batchLoop u i (s :: rest) =
      if u - s ≤ 0 then Sum.inl i else batchLoop (u - s) (i + 1) rest := by
  have hw : wrapInt32 (u - s) = u - s := wrapInt32_of_isInt32 _ (by unfold isInt32; omega)
  simp only [batchLoop, hw]

/-- Within the listed batches the loop returns the least index whose prefix
sum reaches the instance count. -/
theorem batchLoop_within (bs : List Int) (hpos : PositiveSizes bs) :
    ∀ (u : Int) (i : Nat), 1 ≤ u → u ≤ 2147483647 → u ≤ bs.sum →
      ∃ k : Nat, batchLoop u i bs = Sum.inl (i + k) ∧ k < bs.length ∧
        u ≤ (bs.take (k + 1)).sum ∧ ∀ j : Nat, j < k → (bs.take (j + 1)).sum < u := by
  induction bs with
  | nil => intro u i h1 _ hsum; simp at hsum; omega
  | cons s rest ih =>
    intro u i h1 hu hsum
    have hs := hpos.head
    rw [batchLoop_cons u i s rest ⟨h1, hu⟩ hs]
    by_cases hle : u - s ≤ 0
    · refine ⟨0, ?_, ?_, ?_, ?_⟩
      · simp [hle]
      · simp
      · simp; omega
      · intro j hj; omega
    · simp only [List.sum_cons] at hsum
      obtain ⟨k, hk, hlen, hreach, hleast⟩ :=
        ih hpos.tail (u - s) (i + 1) (by omega) (by omega) (by omega)
      refine ⟨k + 1, ?_, ?_, ?_, ?_⟩
      · rw [if_neg hle, hk]; congr 1; omega
      · simp; omega
      · simp only [List.take_succ_cons, List.sum_cons]; omega
      · intro j hj
        cases j with
        | zero => simp; omega
        | succ j =>
          have := hleast j (by omega)
          simp only [List.take_succ_cons, List.sum_cons]; omega

/-- Past the listed batches the loop falls through with what is left of the
instance count. -/
theorem batchLoop_overflow (bs : List Int) (hpos : PositiveSizes bs) :
    ∀ (u : Int) (i : Nat), 1 ≤ u → u ≤ 2147483647 → bs.sum < u →
      batchLoop u i bs = Sum.inr (u - bs.sum) := by
  induction bs with
  | nil => intro u i _ _ _; simp [batchLoop]
  | cons s rest ih =>
    intro u i h1 hu hsum
    have hs := hpos.head
    have hnn := hpos.tail.sum_nonneg
    simp only [List.sum_cons] at hsum
    rw [batchLoop_cons u i s rest ⟨h1, hu⟩ hs, if_neg (by omega),
      ih hpos.tail (u - s) (i + 1) (by omega) (by omega) (by omega)]
    simp only [List.sum_cons]
    congr 1; omega

/-- C1: for a non-empty list of positive sizes and an instance count between 1
and the sum of the sizes, `calculateCurrentBatch` returns the least zero-based
index `i` whose prefix sum `batchSizes[0] + ... + batchSizes[i]` reaches the
count; the index is below the length of the list. -/
theorem calculateCurrentBatch_within (updatingInstances : Int) (batchSizes : List Int)
    (_hne : batchSizes ≠ []) (hpos : PositiveSizes batchSizes)
    (h1 : 1 ≤ updatingInstances) (h32 : isInt32 updatingInstances)
    (hsum : updatingInstances ≤ batchSizes.sum) :
    ∃ i : Nat, calculateCurrentBatch updatingInstances batchSizes = Except.ok (i : Int) ∧
      i < batchSizes.length ∧
      updatingInstances ≤ (batchSizes.take (i + 1)).sum ∧
      ∀ j : Nat, j < i → (batchSizes.take (j + 1)).sum < updatingInstances := by
  obtain ⟨k, hk, hlen, hreach, hleast⟩ :=
    batchLoop_within batchSizes hpos updatingInstances 0 h1 h32.2 hsum
  refine ⟨k, ?_, hlen, hreach, hleast⟩
  unfold calculateCurrentBatch
  rw [hk]
  simp

/-- Witness of C1 on the list `[5,5,5]`: 3 and 5 are in batch 0, 6 in batch 1, 15 in batch 2. -/
theorem calculateCurrentBatch_within_witness :
    (∃ i : Nat, calculateCurrentBatch 6 [5, 5, 5] = Except.ok (i : Int) ∧
      i < [5, 5, 5].length ∧
      (6 : Int) ≤ (([5, 5, 5] : List Int).take (i + 1)).sum ∧
      ∀ j : Nat, j < i → (([5, 5, 5] : List Int).take (j + 1)).sum < 6) ∧
    calculateCurrentBatch 3 [5, 5, 5] = Except.ok 0 ∧
    calculateCurrentBatch 5 [5, 5, 5] = Except.ok 0 ∧
    calculateCurrentBatch 6 [5, 5, 5] = Except.ok 1 ∧
    calculateCurrentBatch 15 [5, 5, 5] = Except.ok 2 :=
  ⟨calculateCurrentBatch_within 6 [5, 5, 5] (by simp)
      (by intro s hs; simp at hs; subst hs; decide) (by decide) (by decide) (by decide),
    rfl, rfl, rfl, rfl⟩

/-- Truncated quotient plus one for a non-zero remainder is the ceiling of
the exact quotient, for positive operands. -/
theorem tdiv_round_up_eq_ceil (r last : Int) (hr : 0 < r) (hl : 0 < last) :
    Int.tdiv r last + (if Int.tmod r last ≠ 0 then 1 else 0) = ⌈(r : ℚ) / (last : ℚ)⌉ := by
  rw [Int.tdiv_eq_ediv hr.le hl.le, Int.tmod_eq_emod hr.le hl.le]
  have hdm := Int.ediv_add_emod r last
  have hm0 := Int.emod_nonneg r hl.ne'
  have hm1 := Int.emod_lt_of_pos r hl
  have hlq : (0 : ℚ) < (last : ℚ) := by exact_mod_cast hl
  have hrq : (r : ℚ) = (last : ℚ) * ((r / last : Int) : ℚ) + ((r % last : Int) : ℚ) := by
    exact_mod_cast hdm.symm
  have hm0q : (0 : ℚ) ≤ ((r % last : Int) : ℚ) := by exact_mod_cast hm0
  have hm1q : ((r % last : Int) : ℚ) < (last : ℚ) := by exact_mod_cast hm1
  symm
  rw [Int.ceil_eq_iff]
  by_cases hz : r % last = 0
  · have hzq : ((r % last : Int) : ℚ) = 0 := by exact_mod_cast hz
    simp only [hz, ne_eq, not_true_eq_false, if_false, add_zero]
    constructor
    · rw [lt_div_iff₀ hlq]; nlinarith
    · rw [div_le_iff₀ hlq]; nlinarith
  · have hposq : (0 : ℚ) < ((r % last : Int) : ℚ) := by
      have : 0 < r % last := by omega
      exact_mod_cast this
    simp only [ne_eq, hz, not_false_eq_true, if_true]
    push_cast
    constructor
    · rw [lt_div_iff₀ hlq]; nlinarith
    · rw [div_le_iff₀ hlq]; nlinarith

theorem tdiv_bounds (r last : Int) (hr : 0 < r) (hl : 0 < last) :
    0 ≤ Int.tdiv r last ∧ Int.tdiv r last ≤ r := by
  rw [Int.tdiv_eq_ediv hr.le hl.le]
  constructor
  · exact Int.ediv_nonneg hr.le hl.le
  · exact Int.ediv_le_self _ hr.le

/-- The overflow tail on a positive remainder and a positive last size. -/
theorem overflowBatches_eq (r : Int) (bs : List Int) (last : Int)
    (hlast : bs.getLast? = some last) (hr : 0 < r ∧ r ≤ 2147483647) (hl : 0 < last) :
    overflowBatches r bs =
      Except.ok (((bs.length : Int) - 1) + ⌈(r : ℚ) / (last : ℚ)⌉) := by
  have hb := tdiv_bounds r last hr.1 hl
  have hw : wrapInt32 (Int.tdiv r last) = Int.tdiv r last :=
    wrapInt32_of_isInt32 _ (by unfold isInt32; omega)
  have hc := tdiv_round_up_eq_ceil r last hr.1 hl
  unfold overflowBatches
  simp only [hlast, hl.ne', if_false, hw]
  by_cases hz : Int.tmod r last = 0
  · simp only [hz, ne_eq, not_true_eq_false, if_false, add_zero] at hc ⊢
    rw [hc]
  · simp only [ne_eq, hz, not_false_eq_true, if_true] at hc ⊢
    rw [← hc, add_assoc]

theorem getLast?_of_ne_nil (bs : List Int) (hne : bs ≠ []) :
    bs.getLast? = some (bs.getLast hne) :=
  List.getLast?_eq_getLast bs hne

/-- The value returned in the overflow region. -/
theorem calculateCurrentBatch_overflow_value (updatingInstances : Int) (batchSizes : List Int)
    (hne : batchSizes ≠ []) (hpos : PositiveSizes batchSizes)
    (h32 : isInt32 updatingInstances) (hsum : batchSizes.sum < updatingInstances) :
    calculateCurrentBatch updatingInstances batchSizes =
        Except.ok (((batchSizes.length : Int) - 1) +
          ⌈((updatingInstances - batchSizes.sum : Int) : ℚ) / ((batchSizes.getLast hne : Int) : ℚ)⌉) := by
  have hnn := hpos.sum_nonneg
  have hl := hpos _ (List.getLast_mem hne)
  have hloop := batchLoop_overflow batchSizes hpos updatingInstances 0 (by omega) h32.2 hsum
  have hr : 0 < updatingInstances - batchSizes.sum ∧
      updatingInstances - batchSizes.sum ≤ 2147483647 := by
    have := h32.2
    omega
  unfold calculateCurrentBatch
  rw [hloop]
  exact overflowBatches_eq _ _ _ (getLast?_of_ne_nil _ hne) hr hl.1

/-- C2: for a non-empty list of positive sizes and an `int32` instance count
strictly above the sum of the sizes, `calculateCurrentBatch` returns
`(len(batchSizes) - 1) + ceil(r / last)` with `r` the count minus the sum and
`last` the final size; that result is at least `len(batchSizes)`. -/
theorem calculateCurrentBatch_overflow (updatingInstances : Int) (batchSizes : List Int)
    (hne : batchSizes ≠ []) (hpos : PositiveSizes batchSizes)
    (h32 : isInt32 updatingInstances) (hsum : batchSizes.sum < updatingInstances) :
    calculateCurrentBatch updatingInstances batchSizes =
        Except.ok (((batchSizes.length : Int) - 1) +
          ⌈((updatingInstances - batchSizes.sum : Int) : ℚ) / ((batchSizes.getLast hne : Int) : ℚ)⌉) ∧
      (batchSizes.length : Int) ≤ ((batchSizes.length : Int) - 1) +
          ⌈((updatingInstances - batchSizes.sum : Int) : ℚ) / ((batchSizes.getLast hne : Int) : ℚ)⌉ := by
  have hnn := hpos.sum_nonneg
  have hl := hpos _ (List.getLast_mem hne)
  have hloop := batchLoop_overflow batchSizes hpos updatingInstances 0 (by omega) h32.2 hsum
  have hr : 0 < updatingInstances - batchSizes.sum ∧
      updatingInstances - batchSizes.sum ≤ 2147483647 := by
    have := h32.2
    omega
  constructor
  · exact calculateCurrentBatch_overflow_value updatingInstances batchSizes hne hpos h32 hsum
  · have hlq : (0 : ℚ) < ((batchSizes.getLast hne : Int) : ℚ) := by exact_mod_cast hl.1
    have hrq : (0 : ℚ) < ((updatingInstances - batchSizes.sum : Int) : ℚ) := by
      exact_mod_cast hr.1
    have : 0 < ⌈((updatingInstances - batchSizes.sum : Int) : ℚ) /
        ((batchSizes.getLast hne : Int) : ℚ)⌉ := Int.ceil_pos.mpr (div_pos hrq hlq)
    omega

/-- Witness of C2: with `[5,5,5]` and 17 instances the result is batch 3. -/
theorem calculateCurrentBatch_overflow_witness :
    (calculateCurrentBatch 17 [5, 5, 5] =
        Except.ok ((([5, 5, 5] : List Int).length : Int) - 1 +
          ⌈((17 - ([5, 5, 5] : List Int).sum : Int) : ℚ) /
            ((([5, 5, 5] : List Int).getLast (by simp) : Int) : ℚ)⌉) ∧
      (([5, 5, 5] : List Int).length : Int) ≤ (([5, 5, 5] : List Int).length : Int) - 1 +
          ⌈((17 - ([5, 5, 5] : List Int).sum : Int) : ℚ) /
            ((([5, 5, 5] : List Int).getLast (by simp) : Int) : ℚ)⌉) ∧
    calculateCurrentBatch 17 [5, 5, 5] = Except.ok 3 :=
  ⟨calculateCurrentBatch_overflow 17 [5, 5, 5] (by simp)
      (by intro s hs; simp at hs; subst hs; decide) (by decide) (by decide), rfl⟩

/-- The loop over a concatenation runs the first part and, when that falls
through, continues on the second part with the remainder. -/
theorem batchLoop_append (bs cs : List Int) :
    ∀ (u : Int) (i : Nat), batchLoop u i (bs ++ cs) =
      match batchLoop u i bs with
      | Sum.inl k => Sum.inl k
      | Sum.inr r => batchLoop r (i + bs.length) cs := by
  induction bs with
  | nil => intro u i; simp [batchLoop]
  | cons s rest ih =>
    intro u i
    rw [List.cons_append, batchLoop_step, batchLoop_step]
    by_cases h : wrapInt32 (u - s) ≤ 0
    · simp [h]
    · simp only [h, if_false]
      rw [ih]
      have : i + 1 + rest.length = i + (s :: rest).length := by
        simp only [List.length_cons]; omega
      rw [this]

theorem ceil_div_sub_self (r last : Int) (hl : 0 < last) :
    ⌈((r - last : Int) : ℚ) / (last : ℚ)⌉ = ⌈(r : ℚ) / (last : ℚ)⌉ - 1 := by
  have hlq : ((last : Int) : ℚ) ≠ 0 := by exact_mod_cast hl.ne'
  have : ((r - last : Int) : ℚ) / (last : ℚ) = (r : ℚ) / (last : ℚ) - 1 := by
    push_cast
    field_simp
  rw [this, Int.ceil_sub_one]

theorem ceil_div_of_le (r last : Int) (hr : 0 < r) (hle : r ≤ last) :
    ⌈(r : ℚ) / (last : ℚ)⌉ = 1 := by
  have hl : 0 < last := by omega
  have hlq : (0 : ℚ) < (last : ℚ) := by exact_mod_cast hl
  have hrq : (0 : ℚ) < (r : ℚ) := by exact_mod_cast hr
  have hleq : (r : ℚ) ≤ (last : ℚ) := by exact_mod_cast hle
  rw [Int.ceil_eq_iff]
  constructor
  · simpa using div_pos hrq hlq
  · rw [div_le_iff₀ hlq]; simpa using hleq

/-- The loop over `k` copies of one positive size: either it stops at the
batch given by the ceiling of remainder over size, or it falls through with
`k` sizes taken off a remainder that is still positive. -/
theorem batchLoop_replicate (last : Int) (hl : 0 < last ∧ last ≤ 2147483647) (k : Nat) :
    ∀ (r : Int) (i : Nat), 0 < r → r ≤ 2147483647 →
      (∃ j : Nat, batchLoop r i (List.replicate k last) = Sum.inl j ∧
          (j : Int) = (i : Int) + ⌈(r : ℚ) / (last : ℚ)⌉ - 1) ∨
      (batchLoop r i (List.replicate k last) = Sum.inr (r - (k : Int) * last) ∧
          0 < r - (k : Int) * last ∧
          ⌈((r - (k : Int) * last : Int) : ℚ) / (last : ℚ)⌉ = ⌈(r : ℚ) / (last : ℚ)⌉ - (k : Int)) := by
  induction k with
  | zero => intro r i hr _; right; simp [batchLoop, hr]
  | succ k ih =>
    intro r i hr hmax
    rw [List.replicate_succ, batchLoop_cons r i last _ ⟨by omega, hmax⟩ hl]
    by_cases hle : r - last ≤ 0
    · left
      refine ⟨i, by simp [hle], ?_⟩
      rw [ceil_div_of_le r last hr (by omega)]
      omega
    · rw [if_neg hle]
      have hstep := ceil_div_sub_self r last hl.1
      rcases ih (r - last) (i + 1) (by omega) (by omega) with ⟨j, hj, hval⟩ | ⟨hrem, hpos, hceil⟩
      · left
        refine ⟨j, hj, ?_⟩
        rw [hval, hstep]
        push_cast
        omega
      · right
        have heq : r - last - (k : Int) * last = r - ((k + 1 : Nat) : Int) * last := by
          push_cast; ring
        rw [heq] at hrem hpos hceil
        refine ⟨hrem, hpos, ?_⟩
        rw [hceil, hstep]
        push_cast
        omega

theorem PositiveSizes.append_replicate {bs : List Int} (hpos : PositiveSizes bs)
    (last : Int) (hl : 0 < last ∧ last ≤ 2147483647) (k : Nat) :
    PositiveSizes (bs ++ List.replicate k last) := by
  intro s hs
  rcases List.mem_append.mp hs with h | h
  · exact hpos s h
  · rw [List.eq_of_mem_replicate h]; exact hl

theorem getLast?_append_replicate (bs : List Int) (hne : bs ≠ []) (k : Nat) :
    (bs ++ List.replicate k (bs.getLast hne)).getLast? = some (bs.getLast hne) := by
  induction k with
  | zero => simpa using getLast?_of_ne_nil bs hne
  | succ k _ =>
    rw [List.replicate_succ', ← List.append_assoc, List.getLast?_append]
    simp

/-- C3: the trailing batch size repeats implicitly. For a non-empty list of
positive sizes with last element `L`, any `k` and any instance count of at
least 1, `calculateCurrentBatch` gives the same batch on the list and on the
list followed by `k` further copies of `L`. -/
theorem calculateCurrentBatch_trailing_repeats (updatingInstances : Int) (batchSizes : List Int)
    (hne : batchSizes ≠ []) (hpos : PositiveSizes batchSizes)
    (h1 : 1 ≤ updatingInstances) (h32 : isInt32 updatingInstances) (k : Nat) :
    ∃ n : Int, calculateCurrentBatch updatingInstances batchSizes = Except.ok n ∧
      calculateCurrentBatch updatingInstances
        (batchSizes ++ List.replicate k (batchSizes.getLast hne)) = Except.ok n := by
  have hl := hpos _ (List.getLast_mem hne)
  by_cases hsum : updatingInstances ≤ batchSizes.sum
  · obtain ⟨i, hi, -⟩ := batchLoop_within batchSizes hpos updatingInstances 0 h1 h32.2 hsum
    refine ⟨((0 + i : Nat) : Int), ?_, ?_⟩
    · unfold calculateCurrentBatch; rw [hi]
    · unfold calculateCurrentBatch; rw [batchLoop_append, hi]
  · have hsum : batchSizes.sum < updatingInstances := by omega
    have hnn := hpos.sum_nonneg
    have hloop := batchLoop_overflow batchSizes hpos updatingInstances 0 h1 h32.2 hsum
    have hr : 0 < updatingInstances - batchSizes.sum ∧
        updatingInstances - batchSizes.sum ≤ 2147483647 := by
      have := h32.2
      omega
    refine ⟨_, (calculateCurrentBatch_overflow_value updatingInstances batchSizes hne hpos h32 hsum), ?_⟩
    unfold calculateCurrentBatch
    rw [batchLoop_append, hloop]
    rcases batchLoop_replicate _ hl k _ (0 + batchSizes.length) hr.1 hr.2 with
      ⟨j, hj, hval⟩ | ⟨hrem, hrpos, hceil⟩
    · simp only [hj, hval]
      congr 1
      push_cast
      omega
    · simp only [hrem]
      have hk : 0 ≤ (k : Int) * batchSizes.getLast hne :=
        mul_nonneg (Int.natCast_nonneg k) hl.1.le
      rw [overflowBatches_eq _ _ _ (getLast?_append_replicate batchSizes hne k)
        ⟨hrpos, by omega⟩ hl.1, hceil]
      congr 1
      simp only [List.length_append, List.length_replicate]
      push_cast
      omega

/-- Witness of C3: `[5,5]` and `[5,5,5,5]` agree on 12 instances (batch 2). -/
theorem calculateCurrentBatch_trailing_repeats_witness :
    ∃ n : Int, calculateCurrentBatch 12 [5, 5] = Except.ok n ∧
      calculateCurrentBatch 12
        ([5, 5] ++ List.replicate 2 (([5, 5] : List Int).getLast (by simp))) = Except.ok n :=
  calculateCurrentBatch_trailing_repeats 12 [5, 5] (by simp)
    (by intro s hs; simp at hs; subst hs; decide) (by decide) (by decide) 2

/-! ## Theorems: update request builder -/

section BuilderTheorems

variable {Task TaskConfig : Type}

/-- C4: each of the three constructors, for every argument, returns a builder
whose settings are the documented defaults: group size 1, minimum running
wait 45000 ms, no waiting for batch completion, failure thresholds 0,
rollback on failure, empty instance-range list, no update strategy, no pulse
interval and no SLA-awareness flag. -/
theorem constructors_default_settings (ops : TaskOps Task TaskConfig) (task : Task)
    (config : TaskConfig) :
    let defaults : JobUpdateSettings :=
      { UpdateGroupSize := 1, MinWaitInInstanceRunningMs := 45000,
        WaitForBatchCompletion := false, MaxPerInstanceFailures := 0, MaxFailedInstances := 0,
        RollbackOnFailure := true, UpdateOnlyTheseInstances := [], UpdateStrategy := none,
        BlockIfNoPulsesAfterMs := none, SlaAware := none }
    (NewJobUpdate ops).request.Settings = defaults ∧
      (JobUpdateFromAuroraTask ops task).request.Settings = defaults ∧
      (JobUpdateFromConfig ops config).request.Settings = defaults :=
  ⟨rfl, rfl, rfl⟩

/-- The strategy field is untouched by every call that is not a strategy call,
and holds exactly one variant after a strategy call. -/
theorem strategyVariants_run_le_one (ops : TaskOps Task TaskConfig) (call : BuilderCall Task)
    (j : JobUpdate Task) (h : strategyVariants j.request.Settings.UpdateStrategy ≤ 1) :
    strategyVariants (call.run ops j).request.Settings.UpdateStrategy ≤ 1 := by
  cases call <;> first | exact h | exact Nat.le_refl 1

theorem strategyVariants_runCalls_le_one (ops : TaskOps Task TaskConfig)
    (calls : List (BuilderCall Task)) :
    ∀ j : JobUpdate Task, strategyVariants j.request.Settings.UpdateStrategy ≤ 1 →
      strategyVariants (runCalls ops calls j).request.Settings.UpdateStrategy ≤ 1 := by
  induction calls with
  | nil => intro j h; exact h
  | cons call rest ih =>
    intro j h
    exact ih (call.run ops j) (strategyVariants_run_le_one ops call j h)

/-- C5: strategy exclusivity. In every builder state, each of the three
strategy setters leaves exactly its own variant present, carrying the given
arguments, and the two other variants absent; and in every state reached from
a constructor by any chain of builder calls at most one strategy variant is
set. In particular a batch strategy followed by a queue strategy leaves only
the queue strategy. -/
theorem strategy_exclusive (ops : TaskOps Task TaskConfig) (j : JobUpdate Task)
    (autoPause : Bool) (n : Int) (sizes : List Int) (calls : List (BuilderCall Task)) :
    (j.BatchUpdateStrategy autoPause n).request.Settings.UpdateStrategy =
        some { QueueStrategy := none,
               BatchStrategy := some { GroupSize := n, AutopauseAfterBatch := autoPause },
               VarBatchStrategy := none } ∧
      (j.QueueUpdateStrategy n).request.Settings.UpdateStrategy =
        some { QueueStrategy := some { GroupSize := n },
               BatchStrategy := none, VarBatchStrategy := none } ∧
      (j.VariableBatchStrategy autoPause sizes).request.Settings.UpdateStrategy =
        some { QueueStrategy := none, BatchStrategy := none,
               VarBatchStrategy := some { GroupSizes := sizes, AutopauseAfterBatch := autoPause } } ∧
      ((j.BatchUpdateStrategy autoPause n).QueueUpdateStrategy n).request.Settings.UpdateStrategy =
        some { QueueStrategy := some { GroupSize := n },
               BatchStrategy := none, VarBatchStrategy := none } ∧
      (Constructed ops j →
        strategyVariants (runCalls ops calls j).request.Settings.UpdateStrategy ≤ 1) := by
  refine ⟨rfl, rfl, rfl, rfl, ?_⟩
  intro hj
  apply strategyVariants_runCalls_le_one
  cases hj <;> exact Nat.zero_le 1

/-- Witness of C5: from a fresh builder, a batch strategy and then a queue
strategy. -/
theorem strategy_exclusive_witness :
    let ops : TaskOps Unit Unit :=
      { NewTask := (), Clone := id, TaskFromThrift := id, TaskConfig := id, durationToMs := id }
    Constructed ops (NewJobUpdate ops) ∧
      strategyVariants
        (runCalls ops [BuilderCall.batchUpdateStrategy true 2, BuilderCall.queueUpdateStrategy 3]
          (NewJobUpdate ops)).request.Settings.UpdateStrategy ≤ 1 :=
  ⟨Constructed.fresh,
    (strategy_exclusive _ _ true 2 []
      [BuilderCall.batchUpdateStrategy true 2, BuilderCall.queueUpdateStrategy 3]).2.2.2.2
      Constructed.fresh⟩

/-- C10: for every builder state and every pair of values, also with
`first > last` or a range already present, `AddInstanceRange(first, last)`
makes the restriction list the previous list followed by the one range
`[first, last]`: the length grows by one and every earlier entry keeps its
place and value. -/
theorem addInstanceRange_appends (j : JobUpdate Task) (first last : Int) :
    (j.AddInstanceRange first last).request.Settings.UpdateOnlyTheseInstances =
        j.request.Settings.UpdateOnlyTheseInstances ++ [{ First := first, Last := last }] ∧
      (j.AddInstanceRange first last).request.Settings.UpdateOnlyTheseInstances.length =
        j.request.Settings.UpdateOnlyTheseInstances.length + 1 ∧
      (∀ i : Nat, i < j.request.Settings.UpdateOnlyTheseInstances.length →
        (j.AddInstanceRange first last).request.Settings.UpdateOnlyTheseInstances[i]? =
          j.request.Settings.UpdateOnlyTheseInstances[i]?) ∧
      (j.AddInstanceRange first last).request.Settings.UpdateOnlyTheseInstances[
          j.request.Settings.UpdateOnlyTheseInstances.length]? =
        some { First := first, Last := last } := by
  refine ⟨rfl, ?_, ?_, ?_⟩
  · simp [JobUpdate.AddInstanceRange]
  · intro i hi
    simp [JobUpdate.AddInstanceRange, List.getElem?_append_left hi]
  · simp [JobUpdate.AddInstanceRange]

end BuilderTheorems

/-! ## Theorems: endpoint validator -/

/-- The address that `validateAuroraAddress` hands to `url.Parse`. -/
theorem validateAuroraAddress_eq (address : GoString) :
    validateAuroraAddress address =
      match Parse (if !contains address [':', '/', '/'] then
          ['h', 't', 't', 'p', ':', '/', '/'] ++ address else address) with
      | Except.error err => Except.error (AddressError.parsingUrl err)
      | Except.ok u =>
        let u := if u.Path = [] then { u with Path := ['/', 'a', 'p', 'i'] } else u
        let u :=
          if URL.Port u = [] then { u with Host := u.Host ++ [':', '8', '0', '8', '1'] } else u
        if ¬(u.Scheme = ['h', 't', 't', 'p'] ∨ u.Scheme = ['h', 't', 't', 'p', 's']) then
          Except.error (AddressError.unsupportedProtocol u.Scheme)
        else if u.Path ≠ ['/', 'a', 'p', 'i'] then
          Except.error (AddressError.unexpectedPath u.Path)
        else Except.ok (URL.String u) := rfl

/-- When `url.Parse` accepts the address, `validateAuroraAddress` fails
exactly on a scheme other than http and https or a path other than the empty
path and `/api`. -/
theorem validateAuroraAddress_error_of_Parse (address : GoString) (u : URL)
    (hparse : Parse (if !contains address [':', '/', '/'] then
        ['h', 't', 't', 'p', ':', '/', '/'] ++ address else address) = Except.ok u) :
    (∃ e, validateAuroraAddress address = Except.error e) ↔
      (¬(u.Scheme = ['h', 't', 't', 'p'] ∨ u.Scheme = ['h', 't', 't', 'p', 's']) ∨
        (u.Path ≠ [] ∧ u.Path ≠ ['/', 'a', 'p', 'i'])) := by
  rw [validateAuroraAddress_eq, hparse]
  simp only
  by_cases hpath : u.Path = []
  · by_cases hport : URL.Port { u with Path := ['/', 'a', 'p', 'i'] } = []
    · by_cases hs : u.Scheme = ['h', 't', 't', 'p'] ∨ u.Scheme = ['h', 't', 't', 'p', 's']
      · simp [hpath, hport, hs]
      · simp [hpath, hport, hs]
    · by_cases hs : u.Scheme = ['h', 't', 't', 'p'] ∨ u.Scheme = ['h', 't', 't', 'p', 's']
      · simp [hpath, hport, hs]
      · simp [hpath, hport, hs]
  · by_cases hport : URL.Port u = []
    · by_cases hs : u.Scheme = ['h', 't', 't', 'p'] ∨ u.Scheme = ['h', 't', 't', 'p', 's']
      · by_cases hapi : u.Path = ['/', 'a', 'p', 'i']
        · simp [hpath, hport, hs, hapi]
        · simp [hpath, hport, hs, hapi]
      · simp [hpath, hport, hs]
    · by_cases hs : u.Scheme = ['h', 't', 't', 'p'] ∨ u.Scheme = ['h', 't', 't', 'p', 's']
      · by_cases hapi : u.Path = ['/', 'a', 'p', 'i']
        · simp [hpath, hport, hs, hapi]
        · simp [hpath, hport, hs, hapi]
      · simp [hpath, hport, hs]

/-- C6: when `url.Parse` accepts the address (with `http://` put in front when
it has no `://`), `validateAuroraAddress` returns an error exactly when the
parsed scheme is neither http nor https or the parsed path is neither empty
nor `/api`; when `url.Parse` fails, it returns an error. The addresses
`ftp://example.com` and `http://example.com/other` are rejected. -/
theorem validateAuroraAddress_error_iff (address : GoString) :
    (match Parse (if !contains address [':', '/', '/'] then
          ['h', 't', 't', 'p', ':', '/', '/'] ++ address else address) with
      | Except.error err =>
        validateAuroraAddress address = Except.error (AddressError.parsingUrl err)
      | Except.ok u =>
        ((∃ e, validateAuroraAddress address = Except.error e) ↔
          (¬(u.Scheme = ['h', 't', 't', 'p'] ∨ u.Scheme = ['h', 't', 't', 'p', 's']) ∨
            (u.Path ≠ [] ∧ u.Path ≠ ['/', 'a', 'p', 'i'])))) ∧
      validateAuroraAddress (str "ftp://example.com") =
        Except.error (AddressError.unsupportedProtocol (str "ftp")) ∧
      validateAuroraAddress (str "http://example.com/other") =
        Except.error (AddressError.unexpectedPath (str "/other")) := by
  refine ⟨?_, by decide, by decide⟩
  cases hp : Parse (if !contains address [':', '/', '/'] then
      ['h', 't', 't', 'p', ':', '/', '/'] ++ address else address) with
  | error err => rw [validateAuroraAddress_eq, hp]
  | ok u => exact validateAuroraAddress_error_of_Parse address u hp

theorem isAlphaNum_toNat {c : Char} (h : isAlphaNum c = true) :
    (48 ≤ c.toNat ∧ c.toNat ≤ 57) ∨ (65 ≤ c.toNat ∧ c.toNat ≤ 90) ∨
      (97 ≤ c.toNat ∧ c.toNat ≤ 122) := by
  simp only [isAlphaNum, Bool.or_eq_true, decide_eq_true_eq, Char.le_def, UInt32.le_def,
    BitVec.le_def] at h
  have h0 : ('0' : Char).val.toBitVec.toNat = 48 := rfl
  have h9 : ('9' : Char).val.toBitVec.toNat = 57 := rfl
  have ha : ('a' : Char).val.toBitVec.toNat = 97 := rfl
  have hz : ('z' : Char).val.toBitVec.toNat = 122 := rfl
  have hA : ('A' : Char).val.toBitVec.toNat = 65 := rfl
  have hZ : ('Z' : Char).val.toBitVec.toNat = 90 := rfl
  simp only [Char.toNat, UInt32.toNat]
  omega

theorem isAuthorityByte_toNat {c : Char} (h : isAuthorityByte c) :
    c.toNat = 45 ∨ c.toNat = 46 ∨ (48 ≤ c.toNat ∧ c.toNat ≤ 58) ∨
      (65 ≤ c.toNat ∧ c.toNat ≤ 90) ∨ (97 ≤ c.toNat ∧ c.toNat ≤ 122) := by
  rcases h with h | h
  · simp only [isHostNameByte, Bool.or_eq_true, decide_eq_true_eq] at h
    rcases h with (h | h) | h
    · have := isAlphaNum_toNat h; omega
    · subst h; decide
    · subst h; decide
  · subst h; decide

theorem isAuthorityByte_ne {c d : Char} (h : isAuthorityByte c)
    (hd : d.toNat < 45 ∨ d.toNat = 47 ∨ (58 < d.toNat ∧ d.toNat < 65) ∨
      (90 < d.toNat ∧ d.toNat < 97) ∨ 122 < d.toNat) : c ≠ d := by
  rintro rfl
  have := isAuthorityByte_toNat h
  omega

theorem shouldEscape_host_of_isAuthorityByte {c : Char} (h : isAuthorityByte c) :
    shouldEscape c Encoding.encodeHost = false := by
  rcases h with h | h
  · simp only [isHostNameByte, Bool.or_eq_true, decide_eq_true_eq] at h
    rcases h with (h | h) | h
    · simp [shouldEscape, h]
    · subst h; decide
    · subst h; decide
  · subst h; decide

theorem cut_of_not_mem (sep : Char) (s : GoString) (h : sep ∉ s) :
    cut sep s = (s, [], false) := by
  induction s with
  | nil => rfl
  | cons c cs ih =>
    have hc : c ≠ sep := fun e => h (e ▸ List.mem_cons_self _ _)
    have hcs := ih (fun m => h (List.mem_cons_of_mem _ m))
    simp [cut, hc, hcs]

theorem cutLast_of_not_mem (sep : Char) (s : GoString) (h : sep ∉ s) :
    cutLast sep s = none := by
  induction s with
  | nil => rfl
  | cons c cs ih =>
    have hc : c ≠ sep := fun e => h (e ▸ List.mem_cons_self _ _)
    have hcs := ih (fun m => h (List.mem_cons_of_mem _ m))
    simp [cutLast, hc, hcs]

theorem cutLast_append (sep : Char) (before after : GoString) (h : sep ∉ after) :
    cutLast sep (before ++ sep :: after) = some (before, after) := by
  induction before with
  | nil => simp [cutLast, cutLast_of_not_mem sep after h]
  | cons c cs ih => simp [cutLast, ih]

theorem index_of_not_mem (c : Char) (sep s : GoString) (h : c ∉ s) :
    index (c :: sep) s = none := by
  induction s with
  | nil => rfl
  | cons x xs ih =>
    have hx : c ≠ x := fun e => h (e ▸ List.mem_cons_self _ _)
    have hxs := ih (fun m => h (List.mem_cons_of_mem _ m))
    simp [index, hasPrefix, hx, hxs]

theorem contains_of_not_mem (c : Char) (sep s : GoString) (h : c ∉ s) :
    contains s (c :: sep) = false := by
  simp [contains, index_of_not_mem c sep s h]

theorem hasPrefix_singleton_of_not_mem (c : Char) (s : GoString) (h : c ∉ s) :
    hasPrefix s [c] = false := by
  cases s with
  | nil => rfl
  | cons x xs =>
    have hx : c ≠ x := fun e => h (e ▸ List.mem_cons_self _ _)
    simp [hasPrefix, List.isPrefixOf, hx]

theorem unescape_host_of_isAuthorityByte (s : GoString) (h : ∀ c ∈ s, isAuthorityByte c) :
    unescape Encoding.encodeHost s = Except.ok s := by
  induction s with
  | nil => rfl
  | cons c cs ih =>
    have hc := h c (List.mem_cons_self _ _)
    have hne : c ≠ '%' := isAuthorityByte_ne hc (by decide)
    have hcs := ih (fun x m => h x (List.mem_cons_of_mem _ m))
    rw [unescape.eq_def]
    simp only [hne, if_false, shouldEscape_host_of_isAuthorityByte hc, Bool.false_eq_true,
      and_false, hcs]
    simp

theorem escape_host_of_isAuthorityByte (s : GoString) (h : ∀ c ∈ s, isAuthorityByte c) :
    escape Encoding.encodeHost s = s := by
  induction s with
  | nil => rfl
  | cons c cs ih =>
    have hc := h c (List.mem_cons_self _ _)
    have hcs := ih (fun x m => h x (List.mem_cons_of_mem _ m))
    simp [escape, shouldEscape_host_of_isAuthorityByte hc, hcs]

theorem stringContainsCTLByte_of_isAuthorityByte (s : GoString)
    (h : ∀ c ∈ s, isAuthorityByte c) : stringContainsCTLByte s = false := by
  simp only [stringContainsCTLByte, List.any_eq_false, Bool.or_eq_true, decide_eq_true_eq]
  intro c hc
  have := isAuthorityByte_toNat (h c hc)
  omega

theorem not_mem_of_isAuthorityByte (s : GoString) (h : ∀ c ∈ s, isAuthorityByte c) (d : Char)
    (hd : d.toNat < 45 ∨ d.toNat = 47 ∨ (58 < d.toNat ∧ d.toNat < 65) ∨
      (90 < d.toNat ∧ d.toNat < 97) ∨ 122 < d.toNat) : d ∉ s :=
  fun m => isAuthorityByte_ne (h d m) hd rfl

theorem isHostName_not_mem_colon (h : GoString) (hh : isHostName h) : ':' ∉ h := by
  intro m
  have := hh _ m
  revert this
  decide

theorem isAuthorityByte_of_isHostName (h : GoString) (hh : isHostName h) :
    ∀ c ∈ h, isAuthorityByte c :=
  fun c m => Or.inl (hh c m)

theorem isPortNumber_digit {p : GoString} (hp : isPortNumber p) {c : Char} (m : c ∈ p) :
    isHostNameByte c = true := by
  have := hp.2 c m
  simp [isHostNameByte, isAlphaNum, this]

theorem isPortNumber_not_mem_colon (p : GoString) (hp : isPortNumber p) : ':' ∉ p := by
  intro m
  have := isPortNumber_digit hp m
  revert this
  decide

theorem isAuthorityByte_host_port (h p : GoString) (hh : isHostName h) (hp : isPortNumber p) :
    ∀ c ∈ h ++ ':' :: p, isAuthorityByte c := by
  intro c m
  rcases List.mem_append.mp m with m | m
  · exact Or.inl (hh c m)
  · rcases List.mem_cons.mp m with m | m
    · exact Or.inr m
    · exact Or.inl (isPortNumber_digit hp m)

theorem validOptionalPort_of_isPortNumber (p : GoString) (hp : isPortNumber p) :
    validOptionalPort (':' :: p) = true := by
  simp only [validOptionalPort, Bool.and_eq_true, decide_eq_true_eq, List.all_eq_true,
    true_and]
  exact hp.2

/-- Go `parseHost` on a plain host name. -/
theorem parseHost_host (h : GoString) (hh : isHostName h) : parseHost h = Except.ok h := by
  have ha := isAuthorityByte_of_isHostName h hh
  unfold parseHost
  rw [hasPrefix_singleton_of_not_mem '[' h (not_mem_of_isAuthorityByte h ha _ (by decide)),
    cutLast_of_not_mem ':' h (isHostName_not_mem_colon h hh)]
  simp [unescape_host_of_isAuthorityByte h ha]

/-- Go `parseHost` on a plain host name with a port number. -/
theorem parseHost_host_port (h p : GoString) (hh : isHostName h) (hp : isPortNumber p) :
    parseHost (h ++ ':' :: p) = Except.ok (h ++ ':' :: p) := by
  have ha := isAuthorityByte_host_port h p hh hp
  unfold parseHost
  rw [hasPrefix_singleton_of_not_mem '[' _ (not_mem_of_isAuthorityByte _ ha _ (by decide)),
    cutLast_append ':' h p (isPortNumber_not_mem_colon p hp)]
  simp [validOptionalPort_of_isPortNumber p hp, unescape_host_of_isAuthorityByte _ ha]

theorem getScheme_http (a : GoString) :
    getScheme ('h' :: 't' :: 't' :: 'p' :: ':' :: '/' :: '/' :: a) =
      Except.ok (['h', 't', 't', 'p'], '/' :: '/' :: a) := rfl

theorem getScheme_https (a : GoString) :
    getScheme ('h' :: 't' :: 't' :: 'p' :: 's' :: ':' :: '/' :: '/' :: a) =
      Except.ok (['h', 't', 't', 'p', 's'], '/' :: '/' :: a) := rfl

theorem parseAuthority_plain (a : GoString) (ha : ∀ c ∈ a, isAuthorityByte c)
    (hph : parseHost a = Except.ok a) : parseAuthority a = Except.ok (none, a) := by
  unfold parseAuthority
  rw [cutLast_of_not_mem '@' a (not_mem_of_isAuthorityByte a ha _ (by decide)), hph]

theorem takeWhile_ne_of_not_mem (c : Char) (s : GoString) (h : c ∉ s) :
    s.takeWhile (fun x => x ≠ c) = s := by
  rw [List.takeWhile_eq_self_iff]
  intro x hx
  have : x ≠ c := fun e => h (e ▸ hx)
  simp [this]

theorem dropWhile_ne_of_not_mem (c : Char) (s : GoString) (h : c ∉ s) :
    s.dropWhile (fun x => x ≠ c) = [] := by
  rw [List.dropWhile_eq_nil_iff]
  intro x hx
  have : x ≠ c := fun e => h (e ▸ hx)
  simp [this]

/-- Go `parse` on `//authority` text after an http or https scheme. -/
theorem parse_rest_plain (scheme a : GoString)
    (hs : scheme = ['h', 't', 't', 'p'] ∨ scheme = ['h', 't', 't', 'p', 's'])
    (ha : ∀ c ∈ a, isAuthorityByte c) (hph : parseHost a = Except.ok a) :
    parse (scheme ++ [':', '/', '/'] ++ a) = Except.ok { Scheme := scheme, Host := a } := by
  have hq : '?' ∉ a := not_mem_of_isAuthorityByte a ha _ (by decide)
  have hslash : '/' ∉ a := not_mem_of_isAuthorityByte a ha _ (by decide)
  have hctl := stringContainsCTLByte_of_isAuthorityByte a ha
  have hq2 : '?' ∉ '/' :: '/' :: a := by simp [hq]
  have hcount : count '?' ('/' :: '/' :: a) = 0 := List.count_eq_zero_of_not_mem hq2
  have hcutq := cut_of_not_mem '?' _ hq2
  have hauth := parseAuthority_plain a ha hph
  have htw := takeWhile_ne_of_not_mem '/' a hslash
  have hdw := dropWhile_ne_of_not_mem '/' a hslash
  simp only [ne_eq, decide_not] at htw hdw
  rcases hs with rfl | rfl
  · show parse ('h' :: 't' :: 't' :: 'p' :: ':' :: '/' :: '/' :: a) = _
    have hctl2 : stringContainsCTLByte ('h' :: 't' :: 't' :: 'p' :: ':' :: '/' :: '/' :: a) = false := by
      simp only [stringContainsCTLByte, List.any_cons] at hctl ⊢
      rw [hctl]; rfl
    unfold parse
    rw [if_neg (by simp [hctl2]), if_neg (by simp), getScheme_http a]
    simp only [hcount, hcutq]
    simp [hasPrefix, toLower, hauth, htw, hdw, URL.setPath, unescape, escape]
  · show parse ('h' :: 't' :: 't' :: 'p' :: 's' :: ':' :: '/' :: '/' :: a) = _
    have hctl2 :
        stringContainsCTLByte ('h' :: 't' :: 't' :: 'p' :: 's' :: ':' :: '/' :: '/' :: a) = false := by
      simp only [stringContainsCTLByte, List.any_cons] at hctl ⊢
      rw [hctl]; rfl
    unfold parse
    rw [if_neg (by simp [hctl2]), if_neg (by simp), getScheme_https a]
    simp only [hcount, hcutq]
    simp [hasPrefix, toLower, hauth, htw, hdw, URL.setPath, unescape, escape]

/-- Go `url.Parse` on `scheme://authority` with an http or https scheme and a
plain authority. -/
theorem Parse_plain (scheme a : GoString)
    (hs : scheme = ['h', 't', 't', 'p'] ∨ scheme = ['h', 't', 't', 'p', 's'])
    (ha : ∀ c ∈ a, isAuthorityByte c) (hph : parseHost a = Except.ok a) :
    Parse (scheme ++ [':', '/', '/'] ++ a) = Except.ok { Scheme := scheme, Host := a } := by
  have hhash : '#' ∉ scheme ++ [':', '/', '/'] ++ a := by
    have := not_mem_of_isAuthorityByte a ha '#' (by decide)
    rcases hs with rfl | rfl <;> simp [this]
  unfold Parse
  rw [cut_of_not_mem '#' _ hhash]
  simp only []
  rw [parse_rest_plain scheme a hs ha hph]
  simp

/-- Go `(*URL).Port` reads the text after the last colon when that is a valid
optional port. -/
theorem URL.Port_eq (u : URL) :
    URL.Port u =
      match cutLast ':' u.Host with
      | some (_, port) => if validOptionalPort (':' :: port) then port else []
      | none => [] := by
  have hsnd : ∀ (r : GoString × GoString),
      (if hasPrefix r.1 ['['] ∧ hasSuffix r.1 [']'] then ((r.1.drop 1).dropLast, r.2)
        else r).2 = r.2 := by
    intro r; split <;> rfl
  unfold URL.Port splitHostPort
  simp only []
  rw [hsnd]
  cases h : cutLast ':' u.Host with
  | none => rfl
  | some hp =>
    obtain ⟨host, port⟩ := hp
    simp only []
    split <;> rfl

/-- Go `(*URL).String` of a URL that has only scheme, plain host and the
path `/api`. -/
theorem URL.String_plain (scheme a : GoString) (hs : scheme ≠ []) (hne : a ≠ [])
    (ha : ∀ c ∈ a, isAuthorityByte c) :
    URL.String { Scheme := scheme, Host := a, Path := ['/', 'a', 'p', 'i'] } =
      scheme ++ [':', '/', '/'] ++ a ++ ['/', 'a', 'p', 'i'] := by
  have hesc : escape Encoding.encodePath ['/', 'a', 'p', 'i'] = ['/', 'a', 'p', 'i'] := by decide
  simp [URL.String, URL.writeHier, URL.EscapedPath, hs, hne, hesc,
    escape_host_of_isAuthorityByte a ha]


/-- The successful path of `validateAuroraAddress`: the parsed URL gets the
path `/api` and, when it has no port, the port 8081, and is written back. -/
theorem validateAuroraAddress_of_Parse (address : GoString) (u : URL)
    (hparse : Parse (if !contains address [':', '/', '/'] then
        ['h', 't', 't', 'p', ':', '/', '/'] ++ address else address) = Except.ok u)
    (hs : u.Scheme = ['h', 't', 't', 'p'] ∨ u.Scheme = ['h', 't', 't', 'p', 's'])
    (hpath : u.Path = [] ∨ u.Path = ['/', 'a', 'p', 'i']) :
    validateAuroraAddress address =
      Except.ok (URL.String { u with
        Path := ['/', 'a', 'p', 'i'],
        Host := if URL.Port u = [] then u.Host ++ [':', '8', '0', '8', '1'] else u.Host }) := by
  rw [validateAuroraAddress_eq, hparse]
  obtain ⟨scheme, opq, user, host, path, rawPath, omitHost, forceQuery, rawQuery, fragment,
    rawFragment⟩ := u
  simp only [URL.Port] at hs hpath ⊢
  rcases hpath with rfl | rfl <;> rcases hs with rfl | rfl <;>
    by_cases hp : (splitHostPort host).2 = [] <;> simp [hp]

/-- C7: endpoint defaults. A bare host name `h` is completed to
`http://h:8081/api`; an address `https://h:p` with a port number `p` keeps
scheme and port and is completed to `https://h:p/api`. -/
theorem validateAuroraAddress_defaults (h p : GoString) (hh : isHostName h)
    (hp : isPortNumber p) :
    validateAuroraAddress h = Except.ok (str "http://" ++ h ++ str ":8081/api") ∧
      validateAuroraAddress (str "https://" ++ h ++ str ":" ++ p) =
        Except.ok (str "https://" ++ h ++ str ":" ++ p ++ str "/api") := by
  constructor
  · have key : validateAuroraAddress h =
        Except.ok (['h', 't', 't', 'p'] ++ [':', '/', '/'] ++ (h ++ [':', '8', '0', '8', '1']) ++
          ['/', 'a', 'p', 'i']) := by
      have ha := isAuthorityByte_of_isHostName h hh
      have hcolon := isHostName_not_mem_colon h hh
      have hparse := Parse_plain ['h', 't', 't', 'p'] h (Or.inl rfl) ha (parseHost_host h hh)
      have ha2 : ∀ c ∈ h ++ [':', '8', '0', '8', '1'], isAuthorityByte c := by
        intro c m
        rcases List.mem_append.mp m with m | m
        · exact ha c m
        · simp only [List.mem_cons, List.mem_singleton, List.not_mem_nil, or_false] at m
          rcases m with rfl | rfl | rfl | rfl | rfl
          · exact Or.inr rfl
          all_goals exact Or.inl (by decide)
      have hport : URL.Port { Scheme := ['h', 't', 't', 'p'], Host := h } = [] := by
        rw [URL.Port_eq]
        simp only [cutLast_of_not_mem ':' h hcolon]
      rw [validateAuroraAddress_of_Parse h _
        (by rw [contains_of_not_mem ':' _ h hcolon]; exact hparse) (Or.inl rfl) (Or.inl rfl)]
      rw [if_pos hport]
      rw [← URL.String_plain ['h', 't', 't', 'p'] (h ++ [':', '8', '0', '8', '1'])
        (by simp) (by simp) ha2]
    simpa [str] using key
  · have key :
        validateAuroraAddress (['h', 't', 't', 'p', 's'] ++ [':', '/', '/'] ++ (h ++ ':' :: p)) =
          Except.ok (['h', 't', 't', 'p', 's'] ++ [':', '/', '/'] ++ (h ++ ':' :: p) ++
            ['/', 'a', 'p', 'i']) := by
      have ha := isAuthorityByte_host_port h p hh hp
      have hparse := Parse_plain ['h', 't', 't', 'p', 's'] (h ++ ':' :: p) (Or.inr rfl) ha
        (parseHost_host_port h p hh hp)
      have hport :
          URL.Port { Scheme := ['h', 't', 't', 'p', 's'], Host := h ++ ':' :: p } = p := by
        rw [URL.Port_eq]
        simp only [cutLast_append ':' h p (isPortNumber_not_mem_colon p hp),
          validOptionalPort_of_isPortNumber p hp, if_true]
      have hcontains :
          contains (['h', 't', 't', 'p', 's'] ++ [':', '/', '/'] ++ (h ++ ':' :: p))
            [':', '/', '/'] = true := by
        simp [contains, index, hasPrefix]
      rw [validateAuroraAddress_of_Parse _ _
        (by rw [hcontains]; exact hparse) (Or.inr rfl) (Or.inl rfl)]
      rw [hport, if_neg hp.1]
      rw [← URL.String_plain ['h', 't', 't', 'p', 's'] (h ++ ':' :: p) (by simp) (by simp) ha]
    simpa [str] using key

/-- Witness of C7: `example.com` and `https://example.com:9000`. -/
theorem validateAuroraAddress_defaults_witness :
    validateAuroraAddress (str "example.com") = Except.ok (str "http://example.com:8081/api") ∧
      validateAuroraAddress (str "https://example.com:9000") =
        Except.ok (str "https://example.com:9000/api") :=
  validateAuroraAddress_defaults (str "example.com") (str "9000")
    (by unfold isHostName; decide) (by unfold isPortNumber; decide)

/-- C8 at the failing input: the address `http://[::1]:` (an IPv6 literal
with an empty port) is accepted and normalised to `http://[::1]::8081/api`,
and that result is rejected by `validateAuroraAddress` itself. -/
theorem validateAuroraAddress_not_idempotent :
    validateAuroraAddress (str "http://[::1]:") = Except.ok (str "http://[::1]::8081/api") ∧
      validateAuroraAddress (str "http://[::1]::8081/api") =
        Except.error (AddressError.parsingUrl (UrlError.invalidPort (str "::8081"))) ∧
      validateAuroraAddress (str "http://host:8081/api") = Except.ok (str "http://host:8081/api") := by
  decide

/-- C9 refuted as stated: an address with a query is accepted and the query is
kept after the path, and the empty address is accepted with an empty host;
neither result has the form `scheme://host:port/api`. -/
theorem validateAuroraAddress_not_canonical :
    (validateAuroraAddress (str "http://example.com/api?x=1") =
        Except.ok (str "http://example.com:8081/api?x=1") ∧
      ¬isCanonicalEndpoint (str "http://example.com:8081/api?x=1")) ∧
    (validateAuroraAddress (str "") = Except.ok (str "http://:8081/api") ∧
      ¬isCanonicalEndpoint (str "http://:8081/api")) := by
  refine ⟨⟨by decide, ?_⟩, ⟨by decide, ?_⟩⟩
  · rintro ⟨scheme, host, port, heq, -, -, -⟩
    have hsuf : ['/', 'a', 'p', 'i'] <:+ str "http://example.com:8081/api?x=1" :=
      ⟨scheme ++ [':', '/', '/'] ++ host ++ [':'] ++ port, heq.symm⟩
    exact absurd (List.isSuffixOf_iff_suffix.mpr hsuf) (by decide)
  · rintro ⟨scheme, host, port, heq, hs, hhost, -⟩
    rcases hs with rfl | rfl
    · have h2 : str ":8081/api" = host ++ [':'] ++ port ++ ['/', 'a', 'p', 'i'] := by
        have : str "http://:8081/api" = ['h', 't', 't', 'p'] ++ [':', '/', '/'] ++ str ":8081/api" := by
          decide
        rw [this] at heq
        simpa [List.append_assoc] using heq
      cases host with
      | nil => exact hhost rfl
      | cons c rest =>
        have h3 : str ":8081/api" = c :: (rest ++ [':'] ++ port ++ ['/', 'a', 'p', 'i']) := by
          simpa using h2
        have h4 : str "8081/api" = rest ++ [':'] ++ port ++ ['/', 'a', 'p', 'i'] :=
          (List.cons.inj h3).2
        have h5 : ':' ∈ str "8081/api" := by rw [h4]; simp
        exact absurd h5 (by decide)
    · have h2 := congrArg (fun l => l.get? 4) heq
      revert h2
      simp [str]

/-- After the default port is appended, Go `(*URL).Port` reads 8081. -/
theorem URL.Port_append_default (u : URL) :
    URL.Port { u with Host := u.Host ++ [':', '8', '0', '8', '1'] } = ['8', '0', '8', '1'] := by
  rw [URL.Port_eq]
  simp only []
  rw [cutLast_append ':' u.Host ['8', '0', '8', '1'] (by decide)]
  rfl

theorem URL.Host_ne_nil_of_Port (u : URL) (h : URL.Port u ≠ []) : u.Host ≠ [] := by
  intro hh
  apply h
  rw [URL.Port_eq, hh]
  rfl

/-- Go `(*URL).String` writes the scheme and a colon first. -/
theorem URL.String_scheme (u : URL) (hs : u.Scheme ≠ []) :
    ∃ rest, URL.String u = u.Scheme ++ ':' :: rest := by
  have hw : ∀ buf : GoString, ∃ rest, URL.writeHier u buf = buf ++ rest := by
    intro buf
    unfold URL.writeHier
    simp only []
    repeat' split
    all_goals
      try simp only [List.append_assoc]
      exact ⟨_, rfl⟩
  unfold URL.String
  simp only [hs, ne_eq, not_false_eq_true, if_true]
  obtain ⟨r, hr⟩ := hw (u.Scheme ++ [':'])
  rw [hr]
  repeat' split
  all_goals
    try simp only [List.append_assoc, List.singleton_append, List.cons_append, List.nil_append]
    exact ⟨_, rfl⟩

/-- Go `(*URL).String` of a URL with scheme, host and the path `/api` only. -/
theorem URL.String_hier (u : URL) (hs : u.Scheme ≠ []) (hhost : u.Host ≠ [])
    (hpath : u.Path = ['/', 'a', 'p', 'i']) (hopq : u.Opaque = []) (huser : u.User = none)
    (hraw : u.RawPath = []) (hfq : u.ForceQuery = false) (hq : u.RawQuery = [])
    (hfrag : u.Fragment = []) :
    URL.String u =
      u.Scheme ++ [':', '/', '/'] ++ escape Encoding.encodeHost u.Host ++ ['/', 'a', 'p', 'i'] := by
  have hesc : escape Encoding.encodePath ['/', 'a', 'p', 'i'] = ['/', 'a', 'p', 'i'] := by decide
  simp [URL.String, URL.writeHier, URL.EscapedPath, hs, hhost, hpath, hopq, huser, hraw, hfq, hq,
    hfrag, hesc]

theorem not_mem_of_cutLast_none (sep : Char) (s : GoString) (h : cutLast sep s = none) :
    sep ∉ s := by
  induction s with
  | nil => simp
  | cons c cs ih =>
    simp only [cutLast] at h
    cases hrec : cutLast sep cs with
    | some r => rw [hrec] at h; cases h
    | none =>
      rw [hrec] at h
      by_cases hc : c = sep
      · simp [hc] at h
      · intro hm
        rcases List.mem_cons.mp hm with hm | hm
        · exact hc hm.symm
        · exact ih hrec hm

/-- Go `strings.LastIndex` splits the text at a separator that does not occur
in the part after it. -/
theorem cutLast_spec (sep : Char) (s a b : GoString) (h : cutLast sep s = some (a, b)) :
    s = a ++ sep :: b ∧ sep ∉ b := by
  induction s generalizing a with
  | nil => simp [cutLast] at h
  | cons c cs ih =>
    simp only [cutLast] at h
    cases hrec : cutLast sep cs with
    | some r =>
      obtain ⟨a1, b1⟩ := r
      rw [hrec] at h
      simp only [Option.some.injEq, Prod.mk.injEq] at h
      obtain ⟨rfl, rfl⟩ := h
      obtain ⟨h1, h2⟩ := ih a1 hrec
      exact ⟨by rw [List.cons_append, ← h1], h2⟩
    | none =>
      rw [hrec] at h
      by_cases hc : c = sep
      · simp only [hc, if_true, Option.some.injEq, Prod.mk.injEq] at h
        obtain ⟨rfl, rfl⟩ := h
        exact ⟨by rw [hc]; rfl, not_mem_of_cutLast_none sep cs hrec⟩
      · simp [hc] at h

theorem escape_cons (mode : Encoding) (c : Char) (rest : GoString) :
    escape mode (c :: rest) =
      if c = ' ' ∧ mode = Encoding.encodeQueryComponent then '+' :: escape mode rest
      else if shouldEscape c mode then
        '%' :: upperhex (c.toNat / 16 % 16) :: upperhex (c.toNat % 16) :: escape mode rest
      else c :: escape mode rest := rfl

theorem escape_append (mode : Encoding) (a b : GoString) :
    escape mode (a ++ b) = escape mode a ++ escape mode b := by
  induction a with
  | nil => rfl
  | cons c cs ih =>
    rw [List.cons_append, escape_cons, escape_cons, ih]
    by_cases h1 : c = ' ' ∧ mode = Encoding.encodeQueryComponent
    · rw [if_pos h1, if_pos h1]; rfl
    · rw [if_neg h1, if_neg h1]
      by_cases h2 : shouldEscape c mode = true
      · rw [if_pos h2, if_pos h2]; rfl
      · rw [if_neg h2, if_neg h2]; rfl

theorem escape_ne_nil (mode : Encoding) (a : GoString) (h : a ≠ []) : escape mode a ≠ [] := by
  cases a with
  | nil => exact absurd rfl h
  | cons c cs =>
    rw [escape_cons]
    split
    · simp
    · split <;> simp

/-- Go `(*URL).Port`, when it is not empty, is the run of digits after the
last colon of the host field. -/
theorem URL.Port_spec (u : URL) (h : URL.Port u ≠ []) :
    ∃ name : GoString, u.Host = name ++ ':' :: URL.Port u ∧
      ∀ d ∈ URL.Port u, '0' ≤ d ∧ d ≤ '9' := by
  rw [URL.Port_eq] at h ⊢
  cases hc : cutLast ':' u.Host with
  | none => rw [hc] at h; exact absurd rfl h
  | some r =>
    obtain ⟨name, port⟩ := r
    rw [hc] at h
    simp only [] at h ⊢
    by_cases hv : validOptionalPort (':' :: port) = true
    · simp only [hv, if_true] at h ⊢
      refine ⟨name, (cutLast_spec ':' u.Host name port hc).1, ?_⟩
      simpa [validOptionalPort] using hv
    · simp [hv] at h

theorem URL.setPath_spec (u v : URL) (p : GoString) (h : URL.setPath u p = Except.ok v) :
    v.Scheme = u.Scheme ∧
      (v.RawPath = [] ∨ (v.RawPath = p ∧ unescape Encoding.encodePath p = Except.ok v.Path)) := by
  unfold URL.setPath at h
  cases hp : unescape Encoding.encodePath p with
  | error e => rw [hp] at h; cases h
  | ok path =>
    rw [hp] at h
    simp only [] at h
    split at h
    · cases h; exact ⟨rfl, Or.inl rfl⟩
    · cases h; exact ⟨rfl, Or.inr ⟨rfl, rfl⟩⟩

theorem head?_dropWhile_ne (c : Char) (l : GoString) :
    l.dropWhile (fun x => x ≠ c) = [] ∨ (l.dropWhile (fun x => x ≠ c)).head? = some c := by
  induction l with
  | nil => left; rfl
  | cons x xs ih =>
    by_cases hx : x = c
    · right; simp [List.dropWhile, hx]
    · simpa [List.dropWhile, hx] using ih

theorem head?_of_hasPrefix_singleton (c : Char) (l : GoString)
    (h : hasPrefix l [c] = true) : l.head? = some c := by
  cases l with
  | nil => simp [hasPrefix] at h
  | cons x xs =>
    simp only [hasPrefix, List.isPrefixOf, Bool.and_true, beq_iff_eq] at h
    simp [h]

/-- Go `parse` leaves a raw path only when it starts with a slash and decodes
to the path, for a URL with a scheme. -/
theorem parse_rawPath (a : GoString) (u : URL) (h : parse a = Except.ok u)
    (hs : u.Scheme ≠ []) :
    u.RawPath = [] ∨
      (u.RawPath.head? = some '/' ∧
        unescape Encoding.encodePath u.RawPath = Except.ok u.Path) := by
  unfold parse at h
  split at h
  · cases h
  · split at h
    · cases h; exact absurd rfl hs
    · split at h
      · cases h
      · rename_i scheme rest hg
        simp only [] at h
        generalize hq :
          (if hasSuffix rest ['?'] = true ∧ count '?' rest = 1 then
            (({ Scheme := toLower scheme, ForceQuery := true } : URL), List.dropLast rest)
          else
            (({ Scheme := toLower scheme, RawQuery := (cut '?' rest).2.1 } : URL),
              (cut '?' rest).1)) = q at h
        have hq1 : q.1.RawPath = [] := by rw [← hq]; split <;> rfl
        obtain ⟨url, rest1⟩ := q
        simp only [] at h hq1
        split at h
        · cases h; left; exact hq1
        · split at h
          · cases h
          · split at h
            · split at h
              · cases h
              · rename_i user host hpa
                obtain ⟨-, hr⟩ := URL.setPath_spec _ _ _ h
                rcases hr with hr | ⟨hr, hun⟩
                · left; exact hr
                · rw [hr]
                  rcases head?_dropWhile_ne '/' (List.drop 2 rest1) with h0 | h0
                  · left; exact h0
                  · right; exact ⟨h0, hun⟩
            · split at h
              · rename_i hcond
                obtain ⟨-, hr⟩ := URL.setPath_spec _ _ _ h
                rcases hr with hr | ⟨hr, hun⟩
                · left; exact hr
                · right; rw [hr]
                  exact ⟨head?_of_hasPrefix_singleton '/' rest1 hcond.2, hun⟩
              · rename_i hn1 _ _ hn4
                obtain ⟨hsch, -⟩ := URL.setPath_spec _ _ _ h
                exfalso
                apply hs
                rw [hsch]
                by_contra hne
                by_cases hp : hasPrefix rest1 ['/'] = true
                · exact hn4 ⟨hne, hp⟩
                · exact hn1 ⟨by simpa using hp, hne⟩

theorem URL.setFragment_spec (u v : URL) (f : GoString) (h : URL.setFragment u f = Except.ok v) :
    v.Scheme = u.Scheme ∧ v.RawPath = u.RawPath ∧ v.Path = u.Path := by
  unfold URL.setFragment at h
  cases hp : unescape Encoding.encodeFragment f with
  | error e => rw [hp] at h; cases h
  | ok frag =>
    rw [hp] at h
    simp only [] at h
    split at h <;> (cases h; exact ⟨rfl, rfl, rfl⟩)

/-- Go `url.Parse` leaves a raw path only when it starts with a slash and
decodes to the path, for a URL with a scheme. -/
theorem Parse_rawPath (a : GoString) (u : URL) (h : Parse a = Except.ok u)
    (hs : u.Scheme ≠ []) :
    u.RawPath = [] ∨
      (u.RawPath.head? = some '/' ∧
        unescape Encoding.encodePath u.RawPath = Except.ok u.Path) := by
  unfold Parse at h
  simp only [] at h
  cases hp : parse (cut '#' a).1 with
  | error e => rw [hp] at h; cases h
  | ok url =>
    rw [hp] at h
    simp only [] at h
    split at h
    · cases h
      exact parse_rawPath _ _ hp hs
    · obtain ⟨h1, h2, h3⟩ := URL.setFragment_spec _ _ _ h
      rw [h2, h3]
      exact parse_rawPath _ _ hp (by rw [← h1]; exact hs)

theorem validEncoded_cons (mode : Encoding) (c : Char) (s : GoString) :
    validEncoded mode (c :: s) = (validEncoded mode [c] && validEncoded mode s) := by
  simp [validEncoded, List.all_cons]

theorem isAlphaNum_of_ishex (c : Char) (h : ishex c = true) : isAlphaNum c = true := by
  simp only [ishex, isAlphaNum, Bool.or_eq_true, decide_eq_true_eq, Char.le_def, UInt32.le_def,
    BitVec.le_def] at h ⊢
  have hz : ('z' : Char).val.toBitVec.toNat = 122 := by decide
  have hf : ('f' : Char).val.toBitVec.toNat = 102 := by decide
  have hZ : ('Z' : Char).val.toBitVec.toNat = 90 := by decide
  have hF : ('F' : Char).val.toBitVec.toNat = 70 := by decide
  rw [hz, hZ]
  rw [hf, hF] at h
  omega

theorem validEncoded_of_ishex (c : Char) (h : ishex c = true) :
    validEncoded Encoding.encodePath [c] = true := by
  simp [validEncoded, shouldEscape, isAlphaNum_of_ishex c h]

/-- Text that Go `unescape` decodes, in path mode, to a validly encoded path
is itself validly encoded. -/
theorem unescape_path_validEncoded (n : Nat) : ∀ (s t : GoString), s.length ≤ n →
    unescape Encoding.encodePath s = Except.ok t →
    validEncoded Encoding.encodePath t = true → validEncoded Encoding.encodePath s = true := by
  induction n with
  | zero =>
    intro s t hl _ _
    cases s with
    | nil => rfl
    | cons c rest => simp at hl
  | succ n ih =>
    intro s t hl h ht
    cases s with
    | nil => rfl
    | cons c rest =>
      rw [unescape.eq_def] at h
      simp only [] at h
      rw [validEncoded_cons]
      by_cases hc : c = '%'
      · rw [if_pos hc] at h
        cases rest with
        | nil => cases h
        | cons a rest1 =>
          cases rest1 with
          | nil => cases h
          | cons b rest2 =>
            simp only [] at h
            by_cases hx : (ishex a && ishex b) = true
            · simp only [hx, Bool.not_true, Bool.false_eq_true, if_false, reduceCtorEq,
                false_and] at h
              cases hr : unescape Encoding.encodePath rest2 with
              | error e => rw [hr] at h; cases h
              | ok t2 =>
                rw [hr] at h
                simp only [Except.ok.injEq] at h
                rw [← h, validEncoded_cons] at ht
                simp only [Bool.and_eq_true] at ht hx
                have h2 := ih rest2 t2 (by simp only [List.length_cons] at hl; omega) hr ht.2
                rw [validEncoded_cons _ a, validEncoded_cons _ b, validEncoded_of_ishex a hx.1,
                  validEncoded_of_ishex b hx.2, h2, hc]
                decide
            · simp only [hx, Bool.not_false, if_true] at h
              cases h
      · rw [if_neg hc] at h
        simp only [reduceCtorEq, false_or, false_and, and_false, if_false] at h
        cases hr : unescape Encoding.encodePath rest with
        | error e => rw [hr] at h; cases h
        | ok t2 =>
          rw [hr] at h
          simp only [Except.ok.injEq] at h
          rw [← h, validEncoded_cons] at ht
          simp only [Bool.and_eq_true] at ht
          rw [ht.1, ih rest t2 (by simp only [List.length_cons] at hl; omega) hr ht.2]
          rfl

theorem unescape_cons_ne_nil (mode : Encoding) (c : Char) (rest t : GoString)
    (h : unescape mode (c :: rest) = Except.ok t) : t ≠ [] := by
  rw [unescape.eq_def] at h
  simp only [] at h
  split at h
  · split at h
    · split at h
      · cases h
      · split at h
        · cases h
        · split at h
          · cases h
          · split at h
            · cases h; simp
            · cases h
    · cases h
  · split at h
    · cases h
    · split at h
      · cases h; simp
      · cases h

/-- The path text that Go `(*URL).String` writes for a URL with the path
`/api`: `/api` itself when there is no raw path, and the raw path when it
decodes to `/api`. -/
theorem URL.EscapedPath_api (u : URL) (hpath : u.Path = ['/', 'a', 'p', 'i']) :
    (URL.EscapedPath u = ['/', 'a', 'p', 'i'] ∨ URL.EscapedPath u = u.RawPath) ∧
      unescape Encoding.encodePath (URL.EscapedPath u) = Except.ok ['/', 'a', 'p', 'i'] ∧
      (u.RawPath = [] → URL.EscapedPath u = ['/', 'a', 'p', 'i']) ∧
      (u.RawPath ≠ [] →
        unescape Encoding.encodePath u.RawPath = Except.ok ['/', 'a', 'p', 'i'] →
        URL.EscapedPath u = u.RawPath) := by
  have hesc : escape Encoding.encodePath ['/', 'a', 'p', 'i'] = ['/', 'a', 'p', 'i'] := by decide
  have hun : unescape Encoding.encodePath ['/', 'a', 'p', 'i'] = Except.ok ['/', 'a', 'p', 'i'] := by
    decide
  unfold URL.EscapedPath
  by_cases hc : u.RawPath ≠ [] ∧ validEncoded Encoding.encodePath u.RawPath = true ∧
      unescapesTo Encoding.encodePath u.RawPath u.Path = true
  · rw [if_pos hc]
    refine ⟨Or.inr rfl, ?_, fun h0 => absurd h0 hc.1, fun _ _ => rfl⟩
    have h3 := hc.2.2
    unfold unescapesTo at h3
    cases hr : unescape Encoding.encodePath u.RawPath with
    | error e => rw [hr] at h3; simp at h3
    | ok p =>
      rw [hr] at h3
      simp only [decide_eq_true_eq] at h3
      rw [h3, hpath]
  · have hraw : u.RawPath ≠ [] →
        unescape Encoding.encodePath u.RawPath = Except.ok ['/', 'a', 'p', 'i'] → False := by
      intro hne hdec
      apply hc
      refine ⟨hne, ?_, ?_⟩
      · exact unescape_path_validEncoded _ _ _ (Nat.le_refl _) hdec (by decide)
      · unfold unescapesTo
        rw [hdec, hpath]
        simp
    rw [if_neg hc, if_neg (by rw [hpath]; decide), hpath, hesc]
    exact ⟨Or.inl rfl, hun, fun _ => rfl, fun hne hdec => (hraw hne hdec).elim⟩

/-- Go `(*URL).String` of a hierarchical URL with a scheme, a host and a path
that starts with a slash. -/
theorem URL.String_hier_full (u : URL) (hs : u.Scheme ≠ []) (hhost : u.Host ≠ [])
    (hopq : u.Opaque = []) (hhead : (URL.EscapedPath u).head? = some '/') :
    URL.String u =
      u.Scheme ++ [':', '/', '/'] ++ URL.userinfoText u ++ escape Encoding.encodeHost u.Host ++
        URL.EscapedPath u ++ URL.queryText u ++ URL.fragmentText u := by
  have hbuf : u.Scheme ++ [':'] ≠ [] := by simp
  unfold URL.String URL.writeHier URL.userinfoText URL.queryText URL.fragmentText
  simp only [hs, hhost, hopq, hhead, ne_eq, not_true_eq_false, not_false_eq_true, if_true,
    if_false, true_or, false_and, and_false, or_true, and_true]
  cases hu : u.User with
  | none =>
    simp only [List.append_assoc, List.cons_append, List.nil_append, List.append_nil,
      List.append_eq_nil, hs, false_and, if_false, reduceCtorEq, and_false]
    split <;> split <;> simp
  | some ui =>
    simp only [List.append_assoc, List.cons_append, List.nil_append, List.append_nil,
      List.append_eq_nil, hs, false_and, if_false, reduceCtorEq, and_false]
    split <;> split <;> simp

/-- Go `(*URL).String` of an opaque URL with a scheme. -/
theorem URL.String_opaque (u : URL) (hs : u.Scheme ≠ []) (hopq : u.Opaque ≠ []) :
    URL.String u = u.Scheme ++ ':' :: u.Opaque ++ URL.queryText u ++ URL.fragmentText u := by
  unfold URL.String URL.queryText URL.fragmentText
  simp only [hs, hopq, ne_eq, not_false_eq_true, if_true]
  split <;> split <;> simp


theorem escape_host_colon_port (port : GoString) (hd : ∀ d ∈ port, '0' ≤ d ∧ d ≤ '9') :
    escape Encoding.encodeHost (':' :: port) = ':' :: port := by
  apply escape_host_of_isAuthorityByte
  intro c m
  rcases List.mem_cons.mp m with m | m
  · exact Or.inr m
  · have := hd c m
    exact Or.inl (by simp [isHostNameByte, isAlphaNum, this])

/-- What `validateAuroraAddress` returns on success, in terms of the parsed
address: the URL with the path `/api` and, when it has no port, with `:8081`
appended to the host field, written back by Go `(*URL).String`. -/
theorem validateAuroraAddress_ok_of_Parse (address c : GoString)
    (h : validateAuroraAddress address = Except.ok c) :
    ∃ u : URL,
      Parse (if !contains address [':', '/', '/'] then
          ['h', 't', 't', 'p', ':', '/', '/'] ++ address else address) = Except.ok u ∧
      (u.Scheme = ['h', 't', 't', 'p'] ∨ u.Scheme = ['h', 't', 't', 'p', 's']) ∧
      (u.Path = [] ∨ u.Path = ['/', 'a', 'p', 'i']) ∧
      c = URL.String { u with
        Path := ['/', 'a', 'p', 'i'],
        Host := if URL.Port u = [] then u.Host ++ [':', '8', '0', '8', '1'] else u.Host } := by
  cases hp : Parse (if !contains address [':', '/', '/'] then
      ['h', 't', 't', 'p', ':', '/', '/'] ++ address else address) with
  | error err =>
    rw [validateAuroraAddress_eq, hp] at h
    cases h
  | ok u0 =>
    by_cases hbad : ¬(u0.Scheme = ['h', 't', 't', 'p'] ∨ u0.Scheme = ['h', 't', 't', 'p', 's']) ∨
        (u0.Path ≠ [] ∧ u0.Path ≠ ['/', 'a', 'p', 'i'])
    · obtain ⟨e, he⟩ := (validateAuroraAddress_error_of_Parse address u0 hp).mpr hbad
      rw [he] at h
      cases h
    · have hs : u0.Scheme = ['h', 't', 't', 'p'] ∨ u0.Scheme = ['h', 't', 't', 'p', 's'] :=
        not_not.mp (fun hn => hbad (Or.inl hn))
      have hpath : u0.Path = [] ∨ u0.Path = ['/', 'a', 'p', 'i'] := by
        by_cases h1 : u0.Path = []
        · exact Or.inl h1
        · exact Or.inr (not_not.mp (fun hn => hbad (Or.inr ⟨h1, hn⟩)))
      rw [validateAuroraAddress_of_Parse address u0 hp hs hpath] at h
      exact ⟨u0, rfl, hs, hpath, (Except.ok.inj h).symm⟩

/-- C9 as amended: every string `c` that `validateAuroraAddress` returns
without error is determined by the URL `u` that `url.Parse` yields for the
address (with `http://` in front when it has no `://`). The scheme of `u` is
http or https and its path is empty or `/api`. The host field of `u`, with
`:8081` appended when `u` has no port, is `name:port` with a non-empty
decimal `port`, which is 8081 when the input gave none and the port of the
input otherwise. When `u` is not opaque, `c` is the scheme, `://`, the user
info if any, the escaped `name`, `:`, `port`, a path text that starts with a
slash and decodes to `/api` (it is `/api` itself, or the raw path of `u` when
the input spelled the path with percent-encoding), the query if any and the
fragment if any. So `c` has
the canonical form `scheme://host:port/api`, the host possibly preceded by
user info, whenever the input has a non-empty host name and no raw path,
query or fragment. When `u` is opaque, `c` is the scheme, `:`, the opaque
text, and query and fragment. -/
theorem validateAuroraAddress_result_shape (address c : GoString)
    (h : validateAuroraAddress address = Except.ok c) :
    ∃ (u : URL) (name port path : GoString),
      Parse (if !contains address [':', '/', '/'] then
          ['h', 't', 't', 'p', ':', '/', '/'] ++ address else address) = Except.ok u ∧
      (u.Scheme = ['h', 't', 't', 'p'] ∨ u.Scheme = ['h', 't', 't', 'p', 's']) ∧
      (u.Path = [] ∨ u.Path = ['/', 'a', 'p', 'i']) ∧
      (if URL.Port u = [] then u.Host ++ [':', '8', '0', '8', '1'] else u.Host) =
        name ++ [':'] ++ port ∧
      port ≠ [] ∧ (∀ d ∈ port, '0' ≤ d ∧ d ≤ '9') ∧
      (URL.Port u = [] → name = u.Host ∧ port = ['8', '0', '8', '1']) ∧
      (URL.Port u ≠ [] → port = URL.Port u) ∧
      path.head? = some '/' ∧
      unescape Encoding.encodePath path = Except.ok ['/', 'a', 'p', 'i'] ∧
      (u.RawPath = [] → path = ['/', 'a', 'p', 'i']) ∧
      (u.RawPath ≠ [] → path = u.RawPath) ∧
      (u.Opaque = [] →
        c = u.Scheme ++ [':', '/', '/'] ++ URL.userinfoText u ++
          escape Encoding.encodeHost name ++ [':'] ++ port ++ path ++
          URL.queryText u ++ URL.fragmentText u) ∧
      (u.Opaque ≠ [] →
        c = u.Scheme ++ [':'] ++ u.Opaque ++ URL.queryText u ++ URL.fragmentText u) ∧
      (u.Opaque = [] → u.RawPath = [] → u.ForceQuery = false → u.RawQuery = [] →
        u.Fragment = [] → name ≠ [] →
        c = u.Scheme ++ [':', '/', '/'] ++
              (URL.userinfoText u ++ escape Encoding.encodeHost name) ++ [':'] ++ port ++
              ['/', 'a', 'p', 'i'] ∧
          isCanonicalEndpoint c) := by
  obtain ⟨u, hparse, hs, hpath, hc⟩ := validateAuroraAddress_ok_of_Parse address c h
  have hsne : u.Scheme ≠ [] := by rcases hs with e | e <;> rw [e] <;> simp
  -- the host field with its port
  have hhost : ∃ name port : GoString,
      (if URL.Port u = [] then u.Host ++ [':', '8', '0', '8', '1'] else u.Host) =
        name ++ [':'] ++ port ∧
      port ≠ [] ∧ (∀ d ∈ port, '0' ≤ d ∧ d ≤ '9') ∧
      (URL.Port u = [] → name = u.Host ∧ port = ['8', '0', '8', '1']) ∧
      (URL.Port u ≠ [] → port = URL.Port u) := by
    by_cases hport : URL.Port u = []
    · refine ⟨u.Host, ['8', '0', '8', '1'], ?_, by simp, by decide, fun _ => ⟨rfl, rfl⟩,
        fun hne => absurd hport hne⟩
      simp [hport]
    · obtain ⟨name, hname, hdig⟩ := URL.Port_spec u hport
      refine ⟨name, URL.Port u, ?_, hport, hdig, fun he => absurd he hport, fun _ => rfl⟩
      rw [if_neg hport]
      simpa using hname
  obtain ⟨name, port, hhp, hpne, hdig, hp8081, hpin⟩ := hhost
  -- the URL that is written back
  generalize hv : ({ u with
      Path := ['/', 'a', 'p', 'i'],
      Host := if URL.Port u = [] then u.Host ++ [':', '8', '0', '8', '1'] else u.Host } : URL) =
    v at hc
  have e1 : v.Scheme = u.Scheme := by rw [← hv]
  have e2 : v.Opaque = u.Opaque := by rw [← hv]
  have e3 : v.Host = name ++ [':'] ++ port := by rw [← hv]; exact hhp
  have e4 : v.Path = ['/', 'a', 'p', 'i'] := by rw [← hv]
  have e5 : v.RawPath = u.RawPath := by rw [← hv]
  have e6 : URL.userinfoText v = URL.userinfoText u := by rw [← hv]; rfl
  have e7 : URL.queryText v = URL.queryText u := by rw [← hv]; rfl
  have e8 : URL.fragmentText v = URL.fragmentText u := by rw [← hv]; rfl
  have hvs : v.Scheme ≠ [] := by rw [e1]; exact hsne
  -- the path text
  obtain ⟨-, hpun, hpraw, hpenc⟩ := URL.EscapedPath_api v e4
  rw [e5] at hpraw hpenc
  have hrawpath : u.RawPath ≠ [] →
      u.RawPath.head? = some '/' ∧
        unescape Encoding.encodePath u.RawPath = Except.ok ['/', 'a', 'p', 'i'] := by
    intro hr
    rcases Parse_rawPath _ u hparse hsne with h0 | ⟨h0, h1⟩
    · exact absurd h0 hr
    · refine ⟨h0, ?_⟩
      rcases hpath with e | e
      · rw [e] at h1
        cases hraw : u.RawPath with
        | nil => exact absurd hraw hr
        | cons x xs =>
          rw [hraw] at h1
          exact absurd rfl (unescape_cons_ne_nil _ _ _ _ h1)
      · rw [← e]; exact h1
  have hpenc2 : u.RawPath ≠ [] → URL.EscapedPath v = u.RawPath :=
    fun hr => hpenc hr (hrawpath hr).2
  have hhead : (URL.EscapedPath v).head? = some '/' := by
    by_cases hr : u.RawPath = []
    · rw [hpraw hr]; rfl
    · rw [hpenc2 hr]; exact (hrawpath hr).1
  have hhostne : v.Host ≠ [] := by rw [e3]; simp
  have hesc : escape Encoding.encodeHost v.Host =
      escape Encoding.encodeHost name ++ [':'] ++ port := by
    rw [e3, List.append_assoc, escape_append]
    show _ ++ escape Encoding.encodeHost (':' :: port) = _
    rw [escape_host_colon_port port hdig]
    simp
  have hnonopaque : u.Opaque = [] →
      c = u.Scheme ++ [':', '/', '/'] ++ URL.userinfoText u ++
        escape Encoding.encodeHost name ++ [':'] ++ port ++ URL.EscapedPath v ++
        URL.queryText u ++ URL.fragmentText u := by
    intro hopq
    rw [hc, URL.String_hier_full v hvs hhostne (by rw [e2]; exact hopq) hhead, hesc, e1, e6, e7,
      e8]
    simp only [List.append_assoc]
  refine ⟨u, name, port, URL.EscapedPath v, hparse, hs, hpath, hhp, hpne, hdig, hp8081, hpin,
    hhead, hpun, hpraw, hpenc2, hnonopaque, ?_, ?_⟩
  · intro hopq
    rw [hc, URL.String_opaque v hvs (by rw [e2]; exact hopq), e1, e2, e7, e8]
    simp only [List.append_assoc, List.singleton_append]
  · intro hopq hraw hfq hq hfrag hname
    have hc2 := hnonopaque hopq
    rw [hpraw hraw] at hc2
    have hqt : URL.queryText u = [] := by simp [URL.queryText, hfq, hq]
    have hft : URL.fragmentText u = [] := by simp [URL.fragmentText, hfrag]
    rw [hqt, hft] at hc2
    have hc3 : c = u.Scheme ++ [':', '/', '/'] ++
        (URL.userinfoText u ++ escape Encoding.encodeHost name) ++ [':'] ++ port ++
        ['/', 'a', 'p', 'i'] := by
      rw [hc2]
      simp only [List.append_assoc, List.append_nil]
    have hne : URL.userinfoText u ++ escape Encoding.encodeHost name ≠ [] := by
      intro he
      exact escape_ne_nil _ _ hname (List.append_eq_nil.mp he).2
    exact ⟨hc3, _, _, port, hc3, hs, hne, hpne⟩


/-- Witness of the amended C9 on an address with a query. -/
theorem validateAuroraAddress_result_shape_witness :
    ∃ (u : URL) (name port path : GoString),
      Parse (if !contains (str "http://example.com/api?x=1") [':', '/', '/'] then
          ['h', 't', 't', 'p', ':', '/', '/'] ++ str "http://example.com/api?x=1"
        else str "http://example.com/api?x=1") = Except.ok u ∧
      (u.Scheme = ['h', 't', 't', 'p'] ∨ u.Scheme = ['h', 't', 't', 'p', 's']) ∧
      (u.Path = [] ∨ u.Path = ['/', 'a', 'p', 'i']) ∧
      (if URL.Port u = [] then u.Host ++ [':', '8', '0', '8', '1'] else u.Host) =
        name ++ [':'] ++ port ∧
      port ≠ [] ∧ (∀ d ∈ port, '0' ≤ d ∧ d ≤ '9') ∧
      (URL.Port u = [] → name = u.Host ∧ port = ['8', '0', '8', '1']) ∧
      (URL.Port u ≠ [] → port = URL.Port u) ∧
      path.head? = some '/' ∧
      unescape Encoding.encodePath path = Except.ok ['/', 'a', 'p', 'i'] ∧
      (u.RawPath = [] → path = ['/', 'a', 'p', 'i']) ∧
      (u.RawPath ≠ [] → path = u.RawPath) ∧
      (u.Opaque = [] →
        str "http://example.com:8081/api?x=1" =
          u.Scheme ++ [':', '/', '/'] ++ URL.userinfoText u ++
          escape Encoding.encodeHost name ++ [':'] ++ port ++ path ++
          URL.queryText u ++ URL.fragmentText u) ∧
      (u.Opaque ≠ [] →
        str "http://example.com:8081/api?x=1" =
          u.Scheme ++ [':'] ++ u.Opaque ++ URL.queryText u ++ URL.fragmentText u) ∧
      (u.Opaque = [] → u.RawPath = [] → u.ForceQuery = false → u.RawQuery = [] →
        u.Fragment = [] → name ≠ [] →
        str "http://example.com:8081/api?x=1" =
          u.Scheme ++ [':', '/', '/'] ++
            (URL.userinfoText u ++ escape Encoding.encodeHost name) ++ [':'] ++ port ++
            ['/', 'a', 'p', 'i'] ∧
          isCanonicalEndpoint (str "http://example.com:8081/api?x=1")) :=
  validateAuroraAddress_result_shape (str "http://example.com/api?x=1")
    (str "http://example.com:8081/api?x=1") (by decide)

/-! ## Theorems: run-time failures, monotonicity and wrap-around of the batch calculator -/

/-- The loop falls through exactly when every running remainder is positive. -/
theorem batchLoop_falls_through_iff (bs : List Int) :
    ∀ (u : Int) (i : Nat),
      (∃ r, batchLoop u i bs = Sum.inr r) ↔ ∀ x ∈ runningRemainders u bs, 0 < x := by
  induction bs with
  | nil => intro u i; simp [batchLoop, runningRemainders]
  | cons s rest ih =>
    intro u i
    rw [batchLoop_step]
    simp only [runningRemainders, List.mem_cons, forall_eq_or_imp]
    by_cases h : wrapInt32 (u - s) ≤ 0
    · simp only [h, if_true]
      constructor
      · rintro ⟨r, hr⟩; cases hr
      · rintro ⟨hpos, -⟩; omega
    · simp only [h, if_false]
      rw [ih]
      constructor
      · intro hall; exact ⟨by omega, hall⟩
      · rintro ⟨-, hall⟩; exact hall

/-- The overflow tail fails only by a zero last size, on a non-empty list. -/
theorem overflowBatches_of_ne_nil (r : Int) (bs : List Int) (hne : bs ≠ []) :
    (bs.getLast hne = 0 ∧ overflowBatches r bs = Except.error Panic.divideByZero) ∨
      (bs.getLast hne ≠ 0 ∧ ∃ n, overflowBatches r bs = Except.ok n) := by
  unfold overflowBatches
  rw [getLast?_of_ne_nil bs hne]
  by_cases h0 : bs.getLast hne = 0
  · left; simp [h0]
  · right
    refine ⟨h0, ?_⟩
    simp only [h0, if_false]
    split
    · exact ⟨_, rfl⟩
    · exact ⟨_, rfl⟩

/-- C13: `calculateCurrentBatch` is unguarded. On an empty list it fails with
an index out of range for every instance count. On a non-empty list it fails,
with an integer division by zero, exactly when every int32 running remainder
is positive (the loop falls through) and the last batch size is 0; it never
fails otherwise, and on a non-empty list of positive sizes it returns a value
for every instance count. -/
theorem calculateCurrentBatch_failures (updatingInstances : Int) (batchSizes : List Int) :
    calculateCurrentBatch updatingInstances [] = Except.error Panic.indexOutOfRange ∧
      (batchSizes ≠ [] →
        ((calculateCurrentBatch updatingInstances batchSizes = Except.error Panic.divideByZero ↔
            (∀ x ∈ runningRemainders updatingInstances batchSizes, 0 < x) ∧
              batchSizes.getLast? = some 0) ∧
          ((∃ e, calculateCurrentBatch updatingInstances batchSizes = Except.error e) ↔
            (∀ x ∈ runningRemainders updatingInstances batchSizes, 0 < x) ∧
              batchSizes.getLast? = some 0))) ∧
      (batchSizes ≠ [] → PositiveSizes batchSizes →
        ∃ n, calculateCurrentBatch updatingInstances batchSizes = Except.ok n) := by
  have hmain : batchSizes ≠ [] →
      ((calculateCurrentBatch updatingInstances batchSizes = Except.error Panic.divideByZero ↔
          (∀ x ∈ runningRemainders updatingInstances batchSizes, 0 < x) ∧
            batchSizes.getLast? = some 0) ∧
        ((∃ e, calculateCurrentBatch updatingInstances batchSizes = Except.error e) ↔
          (∀ x ∈ runningRemainders updatingInstances batchSizes, 0 < x) ∧
            batchSizes.getLast? = some 0)) := by
    intro hne
    rw [← batchLoop_falls_through_iff batchSizes updatingInstances 0,
      getLast?_of_ne_nil batchSizes hne]
    unfold calculateCurrentBatch
    cases hl : batchLoop updatingInstances 0 batchSizes with
    | inl i => simp
    | inr r =>
      simp only [Sum.inr.injEq, exists_eq', true_and, Option.some.injEq]
      rcases overflowBatches_of_ne_nil r batchSizes hne with ⟨h0, he⟩ | ⟨h0, n, hn⟩
      · simp [h0, he]
      · simp [h0, hn]
  refine ⟨rfl, hmain, ?_⟩
  intro hne hpos
  have hl := hpos _ (List.getLast_mem hne)
  cases hres : calculateCurrentBatch updatingInstances batchSizes with
  | ok n => exact ⟨n, rfl⟩
  | error e =>
    have := ((hmain hne).2.mp ⟨e, hres⟩).2
    rw [getLast?_of_ne_nil batchSizes hne] at this
    have h0 : batchSizes.getLast hne = 0 := Option.some.inj this
    omega

/-- Witness of C13: `[5,0]` with 17 instances divides by zero, `[5,5,5]` with
17 instances returns a value. -/
theorem calculateCurrentBatch_failures_witness :
    (calculateCurrentBatch 17 [5, 0] = Except.error Panic.divideByZero ↔
        (∀ x ∈ runningRemainders 17 [5, 0], 0 < x) ∧
          ([5, 0] : List Int).getLast? = some 0) ∧
      calculateCurrentBatch 17 [5, 0] = Except.error Panic.divideByZero ∧
      ∃ n, calculateCurrentBatch 17 [5, 5, 5] = Except.ok n :=
  ⟨((calculateCurrentBatch_failures 17 [5, 0]).2.1 (by simp)).1, rfl,
    (calculateCurrentBatch_failures 17 [5, 5, 5]).2.2 (by simp)
      (by intro s hs; simp at hs; subst hs; decide)⟩

/-- An instance count of zero is in batch 0 of every list that starts with a
positive size. -/
theorem batchLoop_nonpos_no_wrap (u s : Int) (rest : List Int) (i : Nat)
    (hu : u ≤ 0) (hs : 0 < s) (hw : -2147483648 ≤ u - s) :
    batchLoop u i (s :: rest) = Sum.inl i := by
  have hw2 : wrapInt32 (u - s) = u - s :=
    wrapInt32_of_isInt32 _ (by unfold isInt32; omega)
  rw [batchLoop_step, hw2, if_pos (by omega)]

/-- An index returned by the loop is at least the start index. -/
theorem batchLoop_inl_ge (bs : List Int) :
    ∀ (u : Int) (i k : Nat), batchLoop u i bs = Sum.inl k → i ≤ k := by
  induction bs with
  | nil => intro u i k h; simp [batchLoop] at h
  | cons s rest ih =>
    intro u i k h
    rw [batchLoop_step] at h
    by_cases hle : wrapInt32 (u - s) ≤ 0
    · rw [if_pos hle] at h
      have := Sum.inl.inj h
      omega
    · rw [if_neg hle] at h
      have := ih _ _ _ h
      omega

/-- On positive sizes and a non-negative in-range count the result is a
value, and it is non-negative. -/
theorem calculateCurrentBatch_value (u : Int) (bs : List Int) (hne : bs ≠ [])
    (hpos : PositiveSizes bs) (h0 : 0 ≤ u) (h32 : isInt32 u) :
    ∃ n : Int, calculateCurrentBatch u bs = Except.ok n ∧ 0 ≤ n ∧
      (u ≤ bs.sum → n < bs.length) ∧ (bs.sum < u → (bs.length : Int) ≤ n) := by
  by_cases hz : u = 0
  · subst hz
    obtain ⟨s, rest, rfl⟩ := List.exists_cons_of_ne_nil hne
    have hs := hpos.head
    refine ⟨0, ?_, le_refl _, ?_, ?_⟩
    · unfold calculateCurrentBatch
      rw [batchLoop_nonpos_no_wrap 0 s rest 0 (le_refl _) hs.1 (by omega)]
      rfl
    · intro _; simp only [List.length_cons]; push_cast; omega
    · intro h; have := hpos.sum_nonneg; omega
  · have h1 : 1 ≤ u := by omega
    by_cases hsum : u ≤ bs.sum
    · obtain ⟨k, hk, hlen, -, -⟩ := batchLoop_within bs hpos u 0 h1 h32.2 hsum
      refine ⟨((0 + k : Nat) : Int), ?_, by omega, ?_, ?_⟩
      · unfold calculateCurrentBatch; rw [hk]
      · intro _; push_cast; omega
      · intro h; omega
    · have hsum2 : bs.sum < u := by omega
      have hv := calculateCurrentBatch_overflow_value u bs hne hpos h32 hsum2
      have hl := hpos _ (List.getLast_mem hne)
      have hnn := hpos.sum_nonneg
      have hlq : (0 : ℚ) < ((bs.getLast hne : Int) : ℚ) := by exact_mod_cast hl.1
      have hrq : (0 : ℚ) < ((u - bs.sum : Int) : ℚ) := by
        have : 0 < u - bs.sum := by omega
        exact_mod_cast this
      have hc : 0 < ⌈((u - bs.sum : Int) : ℚ) / ((bs.getLast hne : Int) : ℚ)⌉ :=
        Int.ceil_pos.mpr (div_pos hrq hlq)
      refine ⟨_, hv, by omega, ?_, ?_⟩
      · intro h; omega
      · intro _; omega

/-- C18: `calculateCurrentBatch` is monotone in the instance count. For a
non-empty list of positive sizes and int32 counts `0 <= a <= b`, both calls
return a value and the batch of `a` is at most the batch of `b`. -/
theorem calculateCurrentBatch_monotone (a b : Int) (batchSizes : List Int)
    (hne : batchSizes ≠ []) (hpos : PositiveSizes batchSizes)
    (ha : 0 ≤ a) (hab : a ≤ b) (hb : isInt32 b) :
    ∃ m n : Int, calculateCurrentBatch a batchSizes = Except.ok m ∧
      calculateCurrentBatch b batchSizes = Except.ok n ∧ m ≤ n := by
  have ha32 : isInt32 a := by unfold isInt32 at hb ⊢; omega
  have hb0 : 0 ≤ b := by omega
  obtain ⟨m, hm, hm0, hmin, hmout⟩ := calculateCurrentBatch_value a batchSizes hne hpos ha ha32
  obtain ⟨n, hn, hn0, hnin, hnout⟩ := calculateCurrentBatch_value b batchSizes hne hpos hb0 hb
  refine ⟨m, n, hm, hn, ?_⟩
  by_cases hz : a = 0
  · subst hz
    obtain ⟨s, rest, rfl⟩ := List.exists_cons_of_ne_nil hne
    have hs := hpos.head
    have h0 : calculateCurrentBatch 0 (s :: rest) = Except.ok 0 := by
      unfold calculateCurrentBatch
      rw [batchLoop_nonpos_no_wrap 0 s rest 0 (le_refl _) hs.1 (by omega)]
      rfl
    rw [h0] at hm
    have := Except.ok.inj hm
    omega
  · have ha1 : 1 ≤ a := by omega
    have hb1 : 1 ≤ b := by omega
    by_cases hbs : b ≤ batchSizes.sum
    · have has : a ≤ batchSizes.sum := by omega
      obtain ⟨i, hi, -, hireach, hileast⟩ :=
        batchLoop_within batchSizes hpos a 0 ha1 ha32.2 has
      obtain ⟨k, hk, -, hkreach, -⟩ :=
        batchLoop_within batchSizes hpos b 0 hb1 hb.2 hbs
      have hmi : m = ((0 + i : Nat) : Int) := by
        unfold calculateCurrentBatch at hm; rw [hi] at hm; exact (Except.ok.inj hm).symm
      have hnk : n = ((0 + k : Nat) : Int) := by
        unfold calculateCurrentBatch at hn; rw [hk] at hn; exact (Except.ok.inj hn).symm
      have hik : i ≤ k := by
        by_contra hlt
        have := hileast k (by omega)
        omega
      rw [hmi, hnk]
      push_cast
      omega
    · have hbs2 : batchSizes.sum < b := by omega
      by_cases has : a ≤ batchSizes.sum
      · have := hmin has
        have := hnout hbs2
        omega
      · have has2 : batchSizes.sum < a := by omega
        have hva := calculateCurrentBatch_overflow_value a batchSizes hne hpos ha32 has2
        have hvb := calculateCurrentBatch_overflow_value b batchSizes hne hpos hb hbs2
        rw [hva] at hm
        rw [hvb] at hn
        rw [← Except.ok.inj hm, ← Except.ok.inj hn]
        have hl := hpos _ (List.getLast_mem hne)
        have hlq : (0 : ℚ) < ((batchSizes.getLast hne : Int) : ℚ) := by exact_mod_cast hl.1
        have hle : ((a - batchSizes.sum : Int) : ℚ) ≤ ((b - batchSizes.sum : Int) : ℚ) := by
          have : a - batchSizes.sum ≤ b - batchSizes.sum := by omega
          exact_mod_cast this
        have := Int.ceil_le_ceil (div_le_div_of_nonneg_right hle hlq.le)
        omega

/-- Witness of C18: on `[5,5,5]`, 4 instances lie within the listed batches
and 17 instances in the overflow region. -/
theorem calculateCurrentBatch_monotone_witness :
    ∃ m n : Int, calculateCurrentBatch 4 [5, 5, 5] = Except.ok m ∧
      calculateCurrentBatch 17 [5, 5, 5] = Except.ok n ∧ m ≤ n :=
  calculateCurrentBatch_monotone 4 17 [5, 5, 5] (by simp)
    (by intro s hs; simp at hs; subst hs; decide) (by decide) (by decide) (by decide)

/-- A remainder with which the loop falls through a non-empty list is a
positive int32. -/
theorem batchLoop_inr_pos (bs : List Int) :
    ∀ (u : Int) (i : Nat) (r : Int), bs ≠ [] → batchLoop u i bs = Sum.inr r →
      0 < r ∧ r ≤ 2147483647 := by
  induction bs with
  | nil => intro u i r hne; exact absurd rfl hne
  | cons s rest ih =>
    intro u i r _ h
    rw [batchLoop_step] at h
    by_cases hle : wrapInt32 (u - s) ≤ 0
    · rw [if_pos hle] at h; cases h
    · rw [if_neg hle] at h
      by_cases hrest : rest = []
      · subst hrest
        simp only [batchLoop, Sum.inr.injEq] at h
        subst h
        refine ⟨by omega, ?_⟩
        unfold wrapInt32
        omega
      · exact ih _ _ _ hrest h

/-- C19 refuted as stated: with the count `-2^31` and the sizes `[5, 1]` the
first subtraction wraps around to `2^31 - 5` and the result is not batch 0. -/
theorem calculateCurrentBatch_nonpos_wraps :
    isInt32 (-2147483648) ∧ PositiveSizes [5, 1] ∧
      calculateCurrentBatch (-2147483648) [5, 1] = Except.ok 2147483643 ∧
      calculateCurrentBatch (-2147483648) [5, 1] ≠ Except.ok 0 := by
  refine ⟨by decide, ?_, rfl, by decide⟩
  intro s hs
  simp at hs
  rcases hs with rfl | rfl <;> decide

/-- C19 as amended: for a list of positive int32 sizes that starts with the
size `s` and an int32 count `u <= 0`, `calculateCurrentBatch` returns a value,
and that value is 0 exactly when `u - s` does not fall below `-2^31`, that is
when the first subtraction does not wrap around; when it does wrap around, the
int32 remainder after the first subtraction is positive and the result is at
least 1. -/
theorem calculateCurrentBatch_nonpos (u s : Int) (rest : List Int)
    (hpos : PositiveSizes (s :: rest)) (hu : u ≤ 0) (h32 : isInt32 u) :
    (∃ n, calculateCurrentBatch u (s :: rest) = Except.ok n) ∧
      (calculateCurrentBatch u (s :: rest) = Except.ok 0 ↔ -2147483648 ≤ u - s) ∧
      (u - s < -2147483648 →
        0 < wrapInt32 (u - s) ∧
          ∃ n, calculateCurrentBatch u (s :: rest) = Except.ok n ∧ 1 ≤ n) := by
  have hs := hpos.head
  have h32' := h32
  unfold isInt32 at h32'
  by_cases hw : -2147483648 ≤ u - s
  · have h0 : calculateCurrentBatch u (s :: rest) = Except.ok 0 := by
      unfold calculateCurrentBatch
      rw [batchLoop_nonpos_no_wrap u s rest 0 hu hs.1 hw]
      rfl
    exact ⟨⟨0, h0⟩, ⟨fun _ => hw, fun _ => h0⟩, fun hlt => absurd hw (by omega)⟩
  · have hwrap : wrapInt32 (u - s) = u - s + 4294967296 := by
      unfold wrapInt32
      omega
    have hne : (s :: rest) ≠ [] := by simp
    have key : ∃ n : Int, calculateCurrentBatch u (s :: rest) = Except.ok n ∧ 1 ≤ n := by
      unfold calculateCurrentBatch
      cases hl : batchLoop u 0 (s :: rest) with
      | inl k =>
        refine ⟨(k : Int), rfl, ?_⟩
        rw [batchLoop_step, hwrap, if_neg (by omega)] at hl
        have := batchLoop_inl_ge rest _ _ _ hl
        omega
      | inr r =>
        have hr := batchLoop_inr_pos (s :: rest) u 0 r hne hl
        have hl2 := hpos _ (List.getLast_mem hne)
        simp only []
        rw [overflowBatches_eq r (s :: rest) _ (getLast?_of_ne_nil _ hne) hr hl2.1]
        refine ⟨_, rfl, ?_⟩
        have hlq : (0 : ℚ) < (((s :: rest).getLast hne : Int) : ℚ) := by exact_mod_cast hl2.1
        have hrq : (0 : ℚ) < (r : ℚ) := by exact_mod_cast hr.1
        have hc : 0 < ⌈(r : ℚ) / ((((s :: rest).getLast hne : Int)) : ℚ)⌉ :=
          Int.ceil_pos.mpr (div_pos hrq hlq)
        simp only [List.length_cons]
        push_cast
        omega
    obtain ⟨n, hn, hn1⟩ := key
    refine ⟨⟨n, hn⟩, ⟨fun h => ?_, fun h => absurd h hw⟩,
      fun _ => ⟨by rw [hwrap]; omega, n, hn, hn1⟩⟩
    rw [hn] at h
    have := Except.ok.inj h
    omega

/-- Witness of the amended C19: the count `-2147483646` on `[5, 1]` wraps around
and gives a result of at least 1. -/
theorem calculateCurrentBatch_nonpos_witness :
    (∃ n, calculateCurrentBatch (-2147483646) [5, 1] = Except.ok n) ∧
      (calculateCurrentBatch (-2147483646) [5, 1] = Except.ok 0 ↔
        (-2147483648 : Int) ≤ -2147483646 - 5) ∧
      ((-2147483646 : Int) - 5 < -2147483648 →
        0 < wrapInt32 (-2147483646 - 5) ∧
          ∃ n, calculateCurrentBatch (-2147483646) [5, 1] = Except.ok n ∧ 1 ≤ n) :=
  calculateCurrentBatch_nonpos (-2147483646) 5 [1]
    (by intro s hs; simp at hs; rcases hs with rfl | rfl <;> decide) (by decide) (by decide)

/-! ## Theorems: frame and commutation of builder calls -/

section BuilderFrame

variable {Task TaskConfig : Type}

/-- Two requests with the same value in every field are equal. -/
theorem JobUpdateRequest.ext_get (r s : JobUpdateRequest) (h : ∀ f, r.get f = s.get f) :
    r = s := by
  obtain ⟨ri, ⟨r1, r2, r3, r4, r5, r6, r7, r8, r9, r10⟩⟩ := r
  obtain ⟨si, ⟨s1, s2, s3, s4, s5, s6, s7, s8, s9, s10⟩⟩ := s
  have h0 := h RequestField.InstanceCount
  have h1 := h RequestField.UpdateGroupSize
  have h2 := h RequestField.MaxPerInstanceFailures
  have h3 := h RequestField.MaxFailedInstances
  have h4 := h RequestField.MinWaitInInstanceRunningMs
  have h5 := h RequestField.RollbackOnFailure
  have h6 := h RequestField.UpdateOnlyTheseInstances
  have h7 := h RequestField.WaitForBatchCompletion
  have h8 := h RequestField.BlockIfNoPulsesAfterMs
  have h9 := h RequestField.UpdateStrategy
  have h10 := h RequestField.SlaAware
  simp only [JobUpdateRequest.get, FieldValue.int.injEq, FieldValue.bool.injEq,
    FieldValue.optInt.injEq, FieldValue.optBool.injEq, FieldValue.ranges.injEq,
    FieldValue.strategy.injEq] at h0 h1 h2 h3 h4 h5 h6 h7 h8 h9 h10
  subst h0 h1 h2 h3 h4 h5 h6 h7 h8 h9 h10
  rfl

/-- A builder call leaves every request field other than its target as it was. -/
theorem BuilderCall.run_get_of_ne (ops : TaskOps Task TaskConfig) (call : BuilderCall Task)
    (j : JobUpdate Task) (f : RequestField) (h : call.target ≠ some f) :
    (call.run ops j).request.get f = j.request.get f := by
  cases call <;> cases f <;> first | rfl | exact absurd rfl h

/-- A builder call that assigns a request field leaves the task as it was. -/
theorem BuilderCall.run_task (ops : TaskOps Task TaskConfig) (call : BuilderCall Task)
    (j : JobUpdate Task) (h : call.target ≠ none) : (call.run ops j).task = j.task := by
  cases call <;> first | rfl | exact absurd rfl h

/-- C16: each settings mutator writes only its own field. Every builder call
that assigns a request field leaves every other field of the request and the
embedded task as they were, and the assigned field holds the given value:
`InstanceCount` writes `InstanceCount`, `BatchSize` writes `UpdateGroupSize`,
`WatchTime` writes `MinWaitInInstanceRunningMs` (the duration in
milliseconds), `WaitForBatchCompletion`, `MaxPerInstanceFailures`,
`MaxFailedInstances` write the field of their name, `RollbackOnFail` writes
`RollbackOnFailure`, `PulseIntervalTimeout` writes `BlockIfNoPulsesAfterMs`,
`SlaAware` writes `SlaAware`, the three strategy setters write
`UpdateStrategy`, and `AddInstanceRange` writes `UpdateOnlyTheseInstances`. -/
theorem mutators_write_own_field (ops : TaskOps Task TaskConfig) (j : JobUpdate Task)
    (call : BuilderCall Task) (n : Int) (b : Bool) (sizes : List Int) :
    (∀ f : RequestField, call.target ≠ some f →
        (call.run ops j).request.get f = j.request.get f) ∧
      (call.target ≠ none → (call.run ops j).task = j.task) ∧
      ((j.InstanceCount n).request.InstanceCount = n ∧
        (j.BatchSize n).request.Settings.UpdateGroupSize = n ∧
        (j.WatchTime ops n).request.Settings.MinWaitInInstanceRunningMs = ops.durationToMs n ∧
        (j.WaitForBatchCompletion b).request.Settings.WaitForBatchCompletion = b ∧
        (j.MaxPerInstanceFailures n).request.Settings.MaxPerInstanceFailures = n ∧
        (j.MaxFailedInstances n).request.Settings.MaxFailedInstances = n ∧
        (j.RollbackOnFail b).request.Settings.RollbackOnFailure = b ∧
        (j.PulseIntervalTimeout ops n).request.Settings.BlockIfNoPulsesAfterMs =
          some (ops.durationToMs n) ∧
        (j.SlaAware b).request.Settings.SlaAware = some b) ∧
      ((j.BatchSize n).request.Settings.UpdateStrategy = j.request.Settings.UpdateStrategy ∧
        (j.BatchUpdateStrategy b n).request.Settings.UpdateGroupSize =
          j.request.Settings.UpdateGroupSize ∧
        (j.QueueUpdateStrategy n).request.Settings.UpdateGroupSize =
          j.request.Settings.UpdateGroupSize ∧
        (j.VariableBatchStrategy b sizes).request.Settings.UpdateGroupSize =
          j.request.Settings.UpdateGroupSize) :=
  ⟨fun f h => BuilderCall.run_get_of_ne ops call j f h,
    fun h => BuilderCall.run_task ops call j h,
    ⟨rfl, rfl, rfl, rfl, rfl, rfl, rfl, rfl, rfl⟩, ⟨rfl, rfl, rfl, rfl⟩⟩

/-- Witness of C16: `BatchSize(3)` on a fresh builder leaves the watch time at
its default and the task as it was. -/
theorem mutators_write_own_field_witness :
    let ops : TaskOps Unit Unit :=
      { NewTask := (), Clone := id, TaskFromThrift := id, TaskConfig := id, durationToMs := id }
    ((BuilderCall.batchSize 3 : BuilderCall Unit).run ops (NewJobUpdate ops)).request.get
        RequestField.MinWaitInInstanceRunningMs =
        (NewJobUpdate ops).request.get RequestField.MinWaitInInstanceRunningMs ∧
      ((BuilderCall.batchSize 3 : BuilderCall Unit).run ops (NewJobUpdate ops)).task =
        (NewJobUpdate ops).task :=
  ⟨(mutators_write_own_field _ _ (BuilderCall.batchSize 3) 0 false []).1
      RequestField.MinWaitInInstanceRunningMs (by decide),
    (mutators_write_own_field _ _ (BuilderCall.batchSize 3) 0 false []).2.1 (by decide)⟩

/-- Two builder calls with different targets commute. -/
theorem BuilderCall.run_comm (ops : TaskOps Task TaskConfig) (a b : BuilderCall Task)
    (j : JobUpdate Task) (h : a.target ≠ b.target) :
    b.run ops (a.run ops j) = a.run ops (b.run ops j) := by
  cases a <;> cases b <;> first | rfl | exact absurd rfl h

/-- C12 refuted as stated: `BatchSize(1)` and `BatchSize(2)` are not both
strategy calls, and the two orders leave different group sizes; likewise two
`AddInstanceRange` calls append in call order. -/
theorem builder_calls_not_order_independent :
    let ops : TaskOps Unit Unit :=
      { NewTask := (), Clone := id, TaskFromThrift := id, TaskConfig := id, durationToMs := id }
    ((BuilderCall.batchSize 1 : BuilderCall Unit).isStrategyCall = false ∧
      ((BuilderCall.batchSize 2).run ops
          ((BuilderCall.batchSize 1).run ops (NewJobUpdate ops))).request ≠
        ((BuilderCall.batchSize 1).run ops
          ((BuilderCall.batchSize 2).run ops (NewJobUpdate ops))).request) ∧
    ((BuilderCall.addInstanceRange 0 1 : BuilderCall Unit).isStrategyCall = false ∧
      ((BuilderCall.addInstanceRange 2 3).run ops
          ((BuilderCall.addInstanceRange 0 1).run ops (NewJobUpdate ops))).request ≠
        ((BuilderCall.addInstanceRange 0 1).run ops
          ((BuilderCall.addInstanceRange 2 3).run ops (NewJobUpdate ops))).request) := by
  refine ⟨⟨rfl, ?_⟩, ⟨rfl, ?_⟩⟩ <;> decide

/-- C12 as amended: two builder calls that assign different request fields
(calls of different mutators, the three strategy setters counting as one)
commute: both orders give the same builder, request and task. A task
pass-through call assigns no request field, so it commutes with every call as
far as the request goes. -/
theorem builder_calls_commute (ops : TaskOps Task TaskConfig) (a b : BuilderCall Task)
    (j : JobUpdate Task) :
    (a.target ≠ b.target → b.run ops (a.run ops j) = a.run ops (b.run ops j)) ∧
      (a.target = none →
        (b.run ops (a.run ops j)).request = (a.run ops (b.run ops j)).request) := by
  refine ⟨BuilderCall.run_comm ops a b j, ?_⟩
  intro ha
  cases a with
  | passThrough taskMethod => cases b <;> rfl
  | _ => cases ha

/-- Witness of the amended C12: `BatchSize` and `WatchTime` commute, and a task
pass-through call commutes with `BatchSize` on the request. -/
theorem builder_calls_commute_witness :
    let ops : TaskOps Nat Unit :=
      { NewTask := 0, Clone := id, TaskFromThrift := fun _ => 0, TaskConfig := fun _ => (),
        durationToMs := id }
    (BuilderCall.watchTime 5).run ops ((BuilderCall.batchSize 3).run ops (NewJobUpdate ops)) =
        (BuilderCall.batchSize 3).run ops ((BuilderCall.watchTime 5).run ops (NewJobUpdate ops)) ∧
      ((BuilderCall.batchSize 3).run ops
          ((BuilderCall.passThrough Nat.succ).run ops (NewJobUpdate ops))).request =
        ((BuilderCall.passThrough Nat.succ).run ops
          ((BuilderCall.batchSize 3).run ops (NewJobUpdate ops))).request :=
  ⟨(builder_calls_commute _ (BuilderCall.batchSize 3) (BuilderCall.watchTime 5) _).1 (by decide),
    (builder_calls_commute _ (BuilderCall.passThrough Nat.succ) (BuilderCall.batchSize 3) _).2
      rfl⟩

end BuilderFrame

/-! ## Theorems: task pass-through wrappers -/

section PassThroughTheorems

variable {Task F64 ContainerT ThermosT ErrorT : Type}

/-- C17: task pass-through calls do not touch the update configuration. Each
of the 21 pass-through mutators and `BuildThermosPayload` leaves the settings
and the instance count of the request as they were, and only sends the task
through the task method; `BuildThermosPayload` returns an error exactly when
the task method does, and then that same error. -/
theorem passThrough_keeps_request (m : TaskMethods Task F64 ContainerT ThermosT ErrorT)
    (call : PassThroughCall F64 ContainerT ThermosT) (j : JobUpdate Task) :
    (call.run m j).request = j.request ∧
      (call.run m j).request.Settings = j.request.Settings ∧
      (call.run m j).request.InstanceCount = j.request.InstanceCount ∧
      (JobUpdate.BuildThermosPayload m j).1.request = j.request ∧
      (JobUpdate.BuildThermosPayload m j).1.task = (m.BuildThermosPayload j.task).1 ∧
      (JobUpdate.BuildThermosPayload m j).2 = (m.BuildThermosPayload j.task).2 ∧
      (∀ e : ErrorT, (JobUpdate.BuildThermosPayload m j).2 = some e ↔
        (m.BuildThermosPayload j.task).2 = some e) := by
  have h : (call.run m j).request = j.request := by cases call <;> rfl
  exact ⟨h, by rw [h], by rw [h], rfl, rfl, rfl, fun _ => Iff.rfl⟩

end PassThroughTheorems

/-! ## Theorems: status classification tables -/

/-- Filling a table stores `true` for the listed keys and keeps the other
entries. -/
theorem fillTable_apply {K : Type} [DecidableEq K] (states : List K) :
    ∀ (table : StatusTable K) (s : K),
      fillTable states table s = if s ∈ states then some true else table s := by
  induction states with
  | nil => intro table s; simp [fillTable]
  | cons x rest ih =>
    intro table s
    have hstep : fillTable (x :: rest) table = fillTable rest (table.set x true) := rfl
    rw [hstep, ih]
    by_cases hr : s ∈ rest
    · simp [hr]
    · by_cases hx : s = x
      · simp [hr, hx, StatusTable.set]
      · simp [hr, hx, StatusTable.set]

/-- A table filled from the empty map holds `true` exactly for the listed
keys and never holds `false`. -/
theorem fillTable_make {K : Type} [DecidableEq K] (states : List K) (s : K) :
    (fillTable states (StatusTable.make K) s = some true ↔ s ∈ states) ∧
      fillTable states (StatusTable.make K) s ≠ some false ∧
      ((fillTable states (StatusTable.make K)).read s = true ↔ s ∈ states) := by
  rw [StatusTable.read, fillTable_apply]
  by_cases h : s ∈ states
  · simp [h]
  · simp [h, StatusTable.make]

/-- C14: after `init`, each of the six status tables maps a status to `true`
exactly when the status occurs in the corresponding source list, and no entry
is stored as `false`; reading the table gives `true` exactly for the listed
statuses. -/
theorem init_tables {ScheduleStatus JobUpdateStatus : Type} [DecidableEq ScheduleStatus]
    [DecidableEq JobUpdateStatus] (aurora : AuroraStates ScheduleStatus JobUpdateStatus)
    (s : ScheduleStatus) (u : JobUpdateStatus) :
    ((((init aurora).ActiveStates s = some true ↔ s ∈ aurora.ACTIVE_STATES) ∧
        (init aurora).ActiveStates s ≠ some false ∧
        ((init aurora).ActiveStates.read s = true ↔ s ∈ aurora.ACTIVE_STATES)) ∧
      (((init aurora).SlaveAssignedStates s = some true ↔ s ∈ aurora.SLAVE_ASSIGNED_STATES) ∧
        (init aurora).SlaveAssignedStates s ≠ some false ∧
        ((init aurora).SlaveAssignedStates.read s = true ↔
          s ∈ aurora.SLAVE_ASSIGNED_STATES)) ∧
      (((init aurora).LiveStates s = some true ↔ s ∈ aurora.LIVE_STATES) ∧
        (init aurora).LiveStates s ≠ some false ∧
        ((init aurora).LiveStates.read s = true ↔ s ∈ aurora.LIVE_STATES))) ∧
    ((((init aurora).TerminalStates s = some true ↔ s ∈ aurora.TERMINAL_STATES) ∧
        (init aurora).TerminalStates s ≠ some false ∧
        ((init aurora).TerminalStates.read s = true ↔ s ∈ aurora.TERMINAL_STATES)) ∧
      (((init aurora).ActiveJobUpdateStates u = some true ↔
          u ∈ aurora.ACTIVE_JOB_UPDATE_STATES) ∧
        (init aurora).ActiveJobUpdateStates u ≠ some false ∧
        ((init aurora).ActiveJobUpdateStates.read u = true ↔
          u ∈ aurora.ACTIVE_JOB_UPDATE_STATES)) ∧
      (((init aurora).AwaitingPulseJobUpdateStates u = some true ↔
          u ∈ aurora.AWAITNG_PULSE_JOB_UPDATE_STATES) ∧
        (init aurora).AwaitingPulseJobUpdateStates u ≠ some false ∧
        ((init aurora).AwaitingPulseJobUpdateStates.read u = true ↔
          u ∈ aurora.AWAITNG_PULSE_JOB_UPDATE_STATES))) :=
  ⟨⟨fillTable_make _ s, fillTable_make _ s, fillTable_make _ s⟩,
    ⟨fillTable_make _ s, fillTable_make _ u, fillTable_make _ u⟩⟩

/-! ## Theorems: deep-copy isolation -/

section DeepCopyTheorems

variable {Config Thermos : Type}

end DeepCopyTheorems

/-! ## Theorems: conversion of a duration to milliseconds -/

set_option maxRecDepth 100000 in
/-- C11 at the failing input: for the duration of 1001 milliseconds
(1001000000 ns) `timeout.Seconds()` is the float64 just below 1.001, its
product with 1000 is the float64 just below 1001, and the conversion to
`int32` cuts it to 1000. So `WatchTime` stores 1000 and
`PulseIntervalTimeout` stores 1000, not 1001. Durations of 1000 ms and of
45000 ms are converted exactly. -/
theorem duration_1001ms_stored_as_1000 {Task TaskConfig : Type} (ops : TaskOps Task TaskConfig)
    (j : JobUpdate Task) :
    Duration.Seconds 1001000000 = { mant := 4508103226997866, exp := -52 } ∧
      F64.mul (Duration.Seconds 1001000000) (F64.ofInt 1000) =
        { mant := 8804889115230207, exp := -43 } ∧
      int32Milliseconds 1001000000 = some 1000 ∧
      (j.WatchTime ops.withGoConversion 1001000000).request.Settings.MinWaitInInstanceRunningMs =
        1000 ∧
      (j.PulseIntervalTimeout ops.withGoConversion
          1001000000).request.Settings.BlockIfNoPulsesAfterMs = some 1000 ∧
      int32Milliseconds 1000000000 = some 1000 ∧
      int32Milliseconds 45000000000 = some 45000 := by
  have h : int32Milliseconds 1001000000 = some 1000 := by decide
  refine ⟨by decide, by decide, h, ?_, ?_, by decide, by decide⟩
  · show ops.withGoConversion.durationToMs 1001000000 = 1000
    simp only [TaskOps.withGoConversion, h]
  · show some (ops.withGoConversion.durationToMs 1001000000) = some 1000
    simp only [TaskOps.withGoConversion, h]

end Realis
